import Mathlib

/-!
# GoSSHMonitor: remote execution, metric parsing and terminal bridging

A shallow embedding of `main.go`.  Text is modelled as `String` (a sequence of
Unicode code points, i.e. well-formed UTF-8).  The SSH library, the remote
hosts and the websocket are oracles: every call into them takes its outcome
from a parameter.  A Go `error` is represented by its `Error()` text and the
`nil` error by `none`.  The parsers take the `float64` operations as a
parameter; `float64` is their IEEE-754 instance (binary64, round to nearest,
ties to even), with values kept as exact integers and powers of two.
-/

namespace GoSSHMonitor

/-! ## Data model -/

/-- Go `map[string]string`: at most one entry per key. -/
structure GoMap where
  entries : List (String × String)
deriving DecidableEq, Repr

namespace GoMap

/-- Result of `make(map[string]string)`. -/
def empty : GoMap := ⟨[]⟩

/-- Assignment on an entry list: overwrite the entry of `k` or add one. -/
def setEntries : List (String × String) → String → String → List (String × String)
  | [], k, v => [(k, v)]
  | (k', v') :: rest, k, v =>
    if k' = k then (k', v) :: rest else (k', v') :: setEntries rest k v

/-- Go `m[k] = v`. -/
def set (m : GoMap) (k v : String) : GoMap := ⟨setEntries m.entries k v⟩

/-- Lookup on an entry list. -/
def getEntries : List (String × String) → String → Option String
  | [], _ => none
  | (k', v') :: rest, k => if k' = k then some v' else getEntries rest k

/-- Go `v, ok := m[k]`. -/
def get (m : GoMap) (k : String) : Option String := getEntries m.entries k

/-- Go `len(m)`. -/
def len (m : GoMap) : Nat := m.entries.length

/-- Key set of the map, as a list. -/
def keys (m : GoMap) : List String := m.entries.map Prod.fst

end GoMap

/-- Go `type Server struct`. -/
structure Server where
  ID : Int
  Address : String
  User : String
  Password : String
  Commands : GoMap
deriving DecidableEq, Repr

/-- A Go `(string, error)` result pair. -/
structure Ret where
  value : String
  err : Option String
deriving DecidableEq, Repr

/-- Something that is opened and has to be closed. -/
inductive Resource where
  | conn (address : String)
  | session (address : String) (cmd : String)
deriving DecidableEq, Repr

/-- Open and close events, in the order in which they happen. -/
inductive Event where
  | opened (r : Resource)
  | closed (r : Resource)
deriving DecidableEq, Repr

/-- Outcomes of the SSH library calls the program makes.
`dial s` is the error of `ssh.Dial("tcp", s.Address, config)` (`none`: connected),
`newSession a cmd` the error of the `conn.NewSession()` that precedes running
`cmd` on the connection to `a`, and `combinedOutput a cmd` the pair returned by
`session.CombinedOutput(cmd)`. -/
structure SSHWorld where
  dial : Server → Option String
  newSession : String → String → Option String
  combinedOutput : String → String → String × Option String

/-- Text of `ssh.ExitError.Error()` for a remote command that exited with
`status`, without signal and without message (`Waitmsg.String`). -/
def exitErrorText (status : Nat) : String :=
  "Process exited with status " ++ toString status

/-! ## CommandExecutor and FleetDispatcher -/

/-- Go `executeCommand`, with the trace of its open/close events.  The
two deferred `Close` calls run in reverse order when the function returns. -/
def executeCommand (w : SSHWorld) (server : Server) (command : String) : Ret × List Event :=
  match w.dial server with
  | some err => (⟨"", some ("failed to dial: " ++ err)⟩, [])
  | none =>
    let conn := Resource.conn server.Address
    match w.newSession server.Address command with
    | some err =>
      (⟨"", some ("failed to create session: " ++ err)⟩, [.opened conn, .closed conn])
    | none =>
      let session := Resource.session server.Address command
      let tr := [Event.opened conn, .opened session, .closed session, .closed conn]
      match w.combinedOutput server.Address command with
      | (_, some err) => (⟨"", some ("failed to run: " ++ err)⟩, tr)
      | (output, none) => (⟨output, none⟩, tr)

/-- Loop body of `executeCommandOnServers`. -/
def dispatchStep (exec : Server → String → Ret) (command : String)
    (results : GoMap) (server : Server) : GoMap :=
  let r := exec server command
  match r.err with
  | some err => results.set server.Address err
  | none => results.set server.Address r.value

/-- Go `executeCommandOnServers`: the hosts are visited one after the other;
`exec` is the `executeCommand` it calls. -/
def executeCommandOnServers (exec : Server → String → Ret) (command : String)
    (servers : List Server) : GoMap :=
  servers.foldl (dispatchStep exec command) GoMap.empty

/-- Resources still open after a trace: `opened` adds one, `closed` removes one. -/
def leaked : List Event → List Resource → List Resource
  | [], live => live
  | .opened r :: rest, live => leaked rest (r :: live)
  | .closed r :: rest, live => leaked rest (live.erase r)

/-! ## Library functions used by the parsers -/

/-- Go `unicode.IsSpace`. -/
def isSpace (c : Char) : Bool :=
  let n := c.toNat
  (0x09 ≤ n && n ≤ 0x0D) || n == 0x20 || n == 0x85 || n == 0xA0 || n == 0x1680 ||
    (0x2000 ≤ n && n ≤ 0x200A) || n == 0x2028 || n == 0x2029 || n == 0x202F ||
    n == 0x205F || n == 0x3000

/-- Splitting a character list at every occurrence of `sep`. -/
def splitChars (sep : Char) : List Char → List (List Char)
  | [] => [[]]
  | c :: cs =>
    if c = sep then [] :: splitChars sep cs
    else
      match splitChars sep cs with
      | [] => [[c]]
      | l :: ls => (c :: l) :: ls

/-- Maximal runs of non-space characters; `cur` is the run being read, reversed. -/
def fieldsChars : List Char → List Char → List (List Char)
  | [], cur => if cur = [] then [] else [cur.reverse]
  | c :: cs, cur =>
    if isSpace c then
      if cur = [] then fieldsChars cs [] else cur.reverse :: fieldsChars cs []
    else fieldsChars cs (c :: cur)

namespace strings

/-- Go `strings.Split(s, sep)` for a separator of one character, as it is
called here (`sep = "\n"`). -/
def Split (s : String) (sep : Char) : List String :=
  (splitChars sep s.data).map String.mk

/-- Go `strings.Fields`. -/
def Fields (s : String) : List String :=
  (fieldsChars s.data []).map String.mk

/-- Go `strings.TrimSpace`. -/
def TrimSpace (s : String) : String :=
  String.mk ((s.data.dropWhile isSpace).reverse.dropWhile isSpace).reverse

end strings

/-- ASCII decimal digit, the class `\d` of Go regular expressions. -/
def isDigit (c : Char) : Bool := 48 ≤ c.toNat && c.toNat ≤ 57

/-- Value of a string of decimal digits read from the left, starting from `acc`;
`none` when a character is not a digit. -/
def digitsValue : List Char → Nat → Option Nat
  | [], acc => some acc
  | c :: cs, acc => if isDigit c then digitsValue cs (acc * 10 + (c.toNat - 48)) else none

/-- Whether the running value of a digit string reaches `2 ^ 64` before the
first character that is not a digit: `ParseUint` then reports a range error. -/
def digitsOverflow : List Char → Nat → Bool
  | [], _ => false
  | c :: cs, acc =>
    if isDigit c then
      if 2 ^ 64 ≤ acc * 10 + (c.toNat - 48) then true
      else digitsOverflow cs (acc * 10 + (c.toNat - 48))
    else false

namespace strconv

/-- Go `strconv.Atoi` on a 64-bit platform: the value and whether an error is
returned.  A syntax error gives 0, a range error the nearest `int64`. -/
def Atoi (s : String) : Int × Bool :=
  let neg := s.data.head? = some '-'
  let body := if s.data.head? = some '-' || s.data.head? = some '+' then s.data.tail else s.data
  if body = [] then (0, true)
  else if digitsOverflow body 0 then (if neg then -(2 ^ 63 : Int) else 2 ^ 63 - 1, true)
  else
    match digitsValue body 0 with
    | none => (0, true)
    | some un =>
      if !neg && 2 ^ 63 ≤ un then (2 ^ 63 - 1, true)
      else if neg && 2 ^ 63 < un then (-(2 ^ 63 : Int), true)
      else (if neg then -(un : Int) else (un : Int), false)

end strconv

/-- The `float64` operations the parsers use, as parameters: conversion from
`int`, division, multiplication, subtraction, `strconv.ParseFloat(s, 64)` (the
value; its error is dropped by the caller) and `fmt.Sprintf("%.2f", x)`. -/
structure FloatOps where
  F : Type
  ofInt : Int → F
  div : F → F → F
  mul : F → F → F
  sub : F → F → F
  ParseFloat : String → F
  fmt2 : F → String

/-! ## The `float64` operations -/

/-- Number of binary digits of `n`; `fuel` bounds the number of halvings. -/
def bitLen : Nat → Nat → Nat
  | 0, _ => 0
  | fuel + 1, n => if n = 0 then 0 else bitLen fuel (n / 2) + 1

/-- The integer nearest to `num / den`, the even one of the two when it is
halfway between them. -/
def roundHalfEven (num den : Nat) : Nat :=
  if 2 * (num % den) < den then num / den
  else if den < 2 * (num % den) then num / den + 1
  else if num / den % 2 = 0 then num / den
  else num / den + 1

/-- The fraction `(p / q) / 2 ^ e` as numerator and denominator. -/
def scale (p q : Nat) (e : Int) : Nat × Nat :=
  match e with
  | Int.ofNat k => (p, q * 2 ^ k)
  | Int.negSucc k => (p * 2 ^ (k + 1), q)

/-- The integer `k` with `2 ^ k ≤ p / q < 2 ^ (k + 1)`, for positive `p` and `q`. -/
def floorLog2 (p q : Nat) : Int :=
  let e0 : Int := (bitLen p p : Int) - (bitLen q q : Int)
  if (scale p q e0).2 ≤ (scale p q e0).1 then e0 else e0 - 1

/-- A `float64`: a finite value `(-1) ^ neg * mant * 2 ^ exp`, an infinity or NaN. -/
inductive Float64 where
  | finite (neg : Bool) (mant : Nat) (exp : Int)
  | inf (neg : Bool)
  | nan
deriving DecidableEq, Repr

namespace Float64

/-- The `float64` nearest to `(-1) ^ neg * p / q` (ties to even), for `q > 0`:
53 binary digits, exponent at least -1074, infinity from `2 ^ 1024` on. -/
def roundRat (neg : Bool) (p q : Nat) : Float64 :=
  if p = 0 then finite neg 0 0
  else
    let e : Int := max (floorLog2 p q - 52) (-1074)
    let m := roundHalfEven (scale p q e).1 (scale p q e).2
    if 971 < e || (e = 971 && 2 ^ 53 ≤ m) then inf neg else finite neg m e

/-- Conversion `float64(n)` of an integer. -/
def ofInt (n : Int) : Float64 := roundRat (decide (n < 0)) n.natAbs 1

/-- Sign change. -/
def negate : Float64 → Float64
  | finite s m e => finite (!s) m e
  | inf s => inf (!s)
  | nan => nan

/-- Quotient `a / b`. -/
def div : Float64 → Float64 → Float64
  | nan, _ => nan
  | _, nan => nan
  | inf _, inf _ => nan
  | inf s, finite t _ _ => inf (s != t)
  | finite s _ _, inf t => finite (s != t) 0 0
  | finite s ma ea, finite t mb eb =>
    if mb = 0 then (if ma = 0 then nan else inf (s != t))
    else roundRat (s != t) (scale ma mb (eb - ea)).1 (scale ma mb (eb - ea)).2

/-- Product `a * b`. -/
def mul : Float64 → Float64 → Float64
  | nan, _ => nan
  | _, nan => nan
  | inf s, inf t => inf (s != t)
  | inf s, finite t m _ => if m = 0 then nan else inf (s != t)
  | finite s m _, inf t => if m = 0 then nan else inf (s != t)
  | finite s ma ea, finite t mb eb =>
    roundRat (s != t) (scale (ma * mb) 1 (-(ea + eb))).1 (scale (ma * mb) 1 (-(ea + eb))).2

/-- Sum `a + b`. -/
def add : Float64 → Float64 → Float64
  | nan, _ => nan
  | _, nan => nan
  | inf s, inf t => if s = t then inf s else nan
  | inf s, finite _ _ _ => inf s
  | finite _ _ _, inf t => inf t
  | finite s ma ea, finite t mb eb =>
    let e := min ea eb
    let ia : Int := (if s then -1 else 1) * ((ma * 2 ^ (ea - e).toNat : Nat) : Int)
    let ib : Int := (if t then -1 else 1) * ((mb * 2 ^ (eb - e).toNat : Nat) : Int)
    if ia + ib = 0 then finite (if ma = 0 ∧ mb = 0 then s && t else false) 0 0
    else roundRat (decide (ia + ib < 0)) (scale (ia + ib).natAbs 1 (-e)).1
      (scale (ia + ib).natAbs 1 (-e)).2

/-- Difference `a - b`. -/
def sub (a b : Float64) : Float64 := add a (negate b)

end Float64

/-- The two digits of a number below 100. -/
def twoDigits (n : Nat) : String :=
  String.mk [Char.ofNat (48 + n / 10 % 10), Char.ofNat (48 + n % 10)]

/-- The fraction `p / q` rounded to two decimals (halfway cases to the even
digit), with a minus sign when `neg`. -/
def decimal2 (neg : Bool) (p q : Nat) : String :=
  (if neg then "-" else "") ++ toString (roundHalfEven (100 * p) q / 100) ++ "." ++
    twoDigits (roundHalfEven (100 * p) q % 100)

namespace Float64

/-- Go `fmt.Sprintf("%.2f", x)`. -/
def fmt2 : Float64 → String
  | nan => "NaN"
  | inf s => if s then "-Inf" else "+Inf"
  | finite s m e => decimal2 s (scale m 1 (-e)).1 (scale m 1 (-e)).2

/-- Go `strconv.ParseFloat(s, 64)` on the texts the caller passes, digits with
one point inside: the nearest `float64`.  Any other text stands for a syntax
error, with which `ParseFloat` returns 0. -/
def ParseFloat (s : String) : Float64 :=
  let ip := s.data.takeWhile isDigit
  match s.data.dropWhile isDigit with
  | '.' :: fp =>
    if ip = [] ∨ fp = [] then finite false 0 0
    else
      match digitsValue (ip ++ fp) 0 with
      | some v => roundRat false v (10 ^ fp.length)
      | none => finite false 0 0
  | _ => finite false 0 0

end Float64

/-- The `float64` operations of the Go runtime and library. -/
def float64 : FloatOps where
  F := Float64
  ofInt := Float64.ofInt
  div := Float64.div
  mul := Float64.mul
  sub := Float64.sub
  ParseFloat := Float64.ParseFloat
  fmt2 := Float64.fmt2

namespace regexp

/-- Match of the pattern `(\d+\.\d+) id` anchored at the start of the text:
the text of group 1.  Both `\d+` are followed by a non-digit, so the only
candidate is the longest run of digits. -/
def matchIdleAt (s : List Char) : Option (List Char) :=
  let d1 := s.takeWhile isDigit
  if d1 = [] then none
  else
    match s.dropWhile isDigit with
    | '.' :: r =>
      let d2 := r.takeWhile isDigit
      if d2 = [] then none
      else
        match r.dropWhile isDigit with
        | ' ' :: 'i' :: 'd' :: _ => some (d1 ++ '.' :: d2)
        | _ => none
    | _ => none

/-- Leftmost match of `(\d+\.\d+) id`: the text of group 1. -/
def findIdle : List Char → Option (List Char)
  | [] => none
  | c :: cs =>
    match matchIdleAt (c :: cs) with
    | some g => some g
    | none => findIdle cs

/-- Go `regexp.MustCompile("(\\d+\\.\\d+) id").FindStringSubmatch(s)`: `nil` (the
empty slice) without a match, else the whole match followed by group 1. -/
def FindStringSubmatch (s : String) : List String :=
  match findIdle s.data with
  | none => []
  | some g => [String.mk (g ++ [' ', 'i', 'd']), String.mk g]

end regexp

/-! ## Metric parsers

A parser returns `none` when the Go function panics (index out of range). -/

/-- Go `parseUptime`. -/
def parseUptime (output : String) : String :=
  let uptime := strings.TrimSpace output
  uptime

/-- Go `parseMemory`. -/
def parseMemory (fl : FloatOps) (output : String) : Option String :=
  let lines := strings.Split output '\n'
  if lines.length < 2 then some "Memory info not available"
  else do
    let line ← lines[1]?
    let fields := strings.Fields line
    let total := (strconv.Atoi (← fields[1]?)).1
    let used := (strconv.Atoi (← fields[2]?)).1
    let usedPercent := fl.mul (fl.div (fl.ofInt used) (fl.ofInt total)) (fl.ofInt 100)
    some (fl.fmt2 (fl.div (fl.ofInt used) (fl.ofInt 1024)) ++ "GB/" ++
      fl.fmt2 (fl.div (fl.ofInt total) (fl.ofInt 1024)) ++ "GB (" ++
      fl.fmt2 usedPercent ++ "%)")

/-- Go `parseDiskUsage`. -/
def parseDiskUsage (output : String) : Option String :=
  let lines := strings.Split output '\n'
  if lines.length < 2 then some "Disk usage info not available"
  else do
    let line ← lines[1]?
    let fields := strings.Fields line
    let size ← fields[1]?
    let used ← fields[2]?
    let available ← fields[3]?
    let usedPercent ← fields[4]?
    some ("Used: " ++ used ++ ", Total: " ++ size ++ ", Available: " ++ available ++
      " (" ++ usedPercent ++ "%)")

/-- Go `parseCpuUsage`. -/
def parseCpuUsage (fl : FloatOps) (output : String) : Option String :=
  let submatches := regexp.FindStringSubmatch output
  if submatches.length < 2 then some "CPU usage info not available"
  else do
    let idle := fl.ParseFloat (← submatches[1]?)
    let usage := fl.sub (fl.ofInt 100) idle
    some (fl.fmt2 usage ++ "%")

/-! ## MetricsCollector -/

/-- How a call ends: it returns a value, or it panics. -/
inductive Outcome (α : Type) where
  | returned (a : α)
  | panicked
deriving DecidableEq, Repr

/-- The map literal `commands` of `getServerMetrics`. -/
def commands : GoMap :=
  ⟨[("uptime", "uptime"), ("memory", "free -m"), ("disk", "df -h /"),
    ("cpu", "top -bn1 | grep \x27Cpu(s)\x27")]⟩

/-- The `switch key` of `getServerMetrics`: the map after the assignment of the
parsed output, `none` when the parser panics. -/
def storeParsed (fl : FloatOps) (results : GoMap) (key output : String) : Option GoMap :=
  if key = "uptime" then some (results.set key (parseUptime output))
  else if key = "memory" then (parseMemory fl output).map (results.set key)
  else if key = "disk" then (parseDiskUsage output).map (results.set key)
  else if key = "cpu" then (parseCpuUsage fl output).map (results.set key)
  else some results

/-- The `for key, cmd := range commands` loop of `getServerMetrics` over the
entries that are still to be visited, with the events so far. -/
def metricsLoop (fl : FloatOps) (w : SSHWorld) (address : String) :
    List (String × String) → GoMap → List Event →
      Outcome (Option GoMap × Option String) × List Event
  | [], results, tr => (.returned (some results, none), tr)
  | (key, cmd) :: rest, results, tr =>
    match w.newSession address cmd with
    | some err => (.returned (none, some ("failed to create session: " ++ err)), tr)
    | none =>
      let session := Resource.session address cmd
      match w.combinedOutput address cmd with
      | (_, some err) =>
        metricsLoop fl w address rest (results.set key err)
          (tr ++ [.opened session, .closed session])
      | (output, none) =>
        match storeParsed fl results key output with
        | none => (.panicked, tr ++ [.opened session])
        | some results2 =>
          metricsLoop fl w address rest results2 (tr ++ [.opened session, .closed session])

/-- Go `getServerMetrics`, with the trace of its open/close events.  `order` is
the order in which `range` visits the entries of `commands`.  The deferred
`conn.Close()` runs when the function returns and when it panics. -/
def getServerMetrics (fl : FloatOps) (w : SSHWorld) (order : List (String × String))
    (server : Server) : Outcome (Option GoMap × Option String) × List Event :=
  match w.dial server with
  | some err => (.returned (none, some ("failed to dial: " ++ err)), [])
  | none =>
    let conn := Resource.conn server.Address
    let r := metricsLoop fl w server.Address order GoMap.empty [.opened conn]
    (r.1, r.2 ++ [.closed conn])

/-! ## TerminalBridge pumps -/

/-- A byte string. -/
abbrev Bytes := List (Fin 256)

/-- Size of the buffer of the stdout pump, `make([]byte, 1024)`. -/
def bufSize : Nat := 1024

/-- Result of one `stdout.Read(buf)`: the bytes `buf[:n]` and the error. -/
structure ReadResult where
  data : Bytes
  err : Option String
deriving DecidableEq, Repr

/-- Result of one `c.ReadMessage()`: the message and the error. -/
structure RecvResult where
  msg : Bytes
  err : Option String
deriving DecidableEq, Repr

/-- The stdout → channel pump of `handleTerminal`: the messages sent on the
channel, in order.  `reads` are the results of the successive `stdout.Read`
calls, `sendErr i` the error of the `i`-th `c.WriteMessage`. -/
def stdoutPump (sendErr : Nat → Option String) : List ReadResult → Nat → List Bytes
  | [], _ => []
  | r :: reads, i =>
    match r.err with
    | some _ => []
    | none =>
      match sendErr i with
      | some _ => []
      | none => r.data :: stdoutPump sendErr reads (i + 1)

/-- The channel → stdin pump of `handleTerminal`: the bytes written to the
remote input stream, in order.  `recvs` are the results of the successive
`c.ReadMessage` calls; `writeErr i` is `none` when the `i`-th `stdin.Write`
writes the whole message, and the count of bytes written before the error
otherwise. -/
def stdinPump (writeErr : Nat → Option Nat) : List RecvResult → Nat → Bytes
  | [], _ => []
  | r :: recvs, i =>
    match r.err with
    | some _ => []
    | none =>
      match writeErr i with
      | some n => r.msg.take n
      | none => r.msg ++ stdinPump writeErr recvs (i + 1)

/-- The parser that `getServerMetrics` applies to the output of the command
stored under `key`. -/
def parserFor (fl : FloatOps) (key : String) (output : String) : Option String :=
  if key = "uptime" then some (parseUptime output)
  else if key = "memory" then parseMemory fl output
  else if key = "disk" then parseDiskUsage output
  else parseCpuUsage fl output

/-- An instance of the float operations that records the expression instead of
computing it; it serves to run the control flow on concrete inputs. -/
def FloatOps.symbolic : FloatOps where
  F := String
  ofInt n := toString n
  div a b := "(" ++ a ++ "/" ++ b ++ ")"
  mul a b := "(" ++ a ++ "*" ++ b ++ ")"
  sub a b := "(" ++ a ++ "-" ++ b ++ ")"
  ParseFloat s := s
  fmt2 x := "%.2f[" ++ x ++ "]"

/-! ## Reference texts of the parsers -/

/-- Text that the description of `parseMemory` gives for total `T` and used `U`:
`U / 1024`, `T / 1024` and `100 * U / T`, each rounded to two decimals. -/
def memoryReference (T : Nat) (U : Int) : String :=
  decimal2 (decide (U < 0)) U.natAbs 1024 ++ "GB/" ++ decimal2 false T 1024 ++ "GB (" ++
    decimal2 (decide (U < 0)) (100 * U.natAbs) T ++ "%)"

/-- Text that the description of `parseCpuUsage` gives for the idle value
`p / q`: `100 - p / q` rounded to two decimals, followed by the percent sign. -/
def cpuReference (p q : Nat) : String :=
  (if p ≤ 100 * q then decimal2 false (100 * q - p) q else decimal2 true (p - 100 * q) q) ++ "%"

/-- Value of a decimal integer: an optional sign and at least one digit. -/
def decimalValue (s : String) : Option Int :=
  match s.data with
  | '-' :: ds => if ds = [] then none else (digitsValue ds 0).map (fun v => -(v : Int))
  | '+' :: ds => if ds = [] then none else (digitsValue ds 0).map (fun v => (v : Int))
  | ds => if ds = [] then none else (digitsValue ds 0).map (fun v => (v : Int))

/-- An occurrence of the form digits, point, digits, ` id` in the text `s`,
after the prefix `pre`. -/
def IdleOccurrence (s pre ip fp post : List Char) : Prop :=
  s = pre ++ (ip ++ '.' :: (fp ++ ' ' :: 'i' :: 'd' :: post)) ∧ ip ≠ [] ∧ fp ≠ [] ∧
    (∀ c ∈ ip, isDigit c = true) ∧ (∀ c ∈ fp, isDigit c = true)

/-! ## Sample inputs -/

/-- A stored host. -/
def sampleServer : Server := ⟨1, "10.0.0.1", "root", "pw", GoMap.empty⟩

/-- A host on which `uptime` and `df` succeed, `free` exits with status 127 and
`top` prints nothing that matches. -/
def sampleWorld : SSHWorld where
  dial _ := none
  newSession _ _ := none
  combinedOutput _ cmd :=
    if cmd = "uptime" then (" 12:00:01 up 3 days\n", none)
    else if cmd = "free -m" then ("bash: free: command not found\n", some (exitErrorText 127))
    else if cmd = "df -h /" then
      ("Filesystem Size Used Avail Use% Mounted on\n/dev/sda1 50G 20G 28G 42% /\n", none)
    else ("", none)

/-- The same host when the server refuses the session that would run `free -m`. -/
def refusingWorld : SSHWorld where
  dial _ := none
  newSession _ cmd := if cmd = "free -m" then some "ssh: rejected: resource shortage" else none
  combinedOutput := sampleWorld.combinedOutput

/-- The host of `sampleWorld` with an older `df`, which puts a long device name
on a line of its own. -/
def wrappingWorld : SSHWorld where
  dial _ := none
  newSession _ _ := none
  combinedOutput _ cmd :=
    if cmd = "df -h /" then
      ("Filesystem Size Used Avail Use% Mounted on\n/dev/mapper/vg0-root\n 50G 20G 28G 42% /\n",
        none)
    else sampleWorld.combinedOutput "10.0.0.1" cmd

/-! ## Facts about the map model -/

theorem GoMap.keys_setEntries (l : List (String × String)) (k v : String) :
    (GoMap.setEntries l k v).map Prod.fst =
      if k ∈ l.map Prod.fst then l.map Prod.fst else l.map Prod.fst ++ [k] := by
  induction l with
  | nil => simp [GoMap.setEntries]
  | cons hd tl ih =>
    obtain ⟨k', v'⟩ := hd
    by_cases h : k' = k
    · subst h
      simp [GoMap.setEntries]
    · have h2 : ¬ k = k' := fun e => h e.symm
      simp only [GoMap.setEntries, if_neg h, List.map_cons, ih, List.mem_cons, h2, false_or]
      split <;> simp

theorem GoMap.getEntries_setEntries (l : List (String × String)) (k v a : String) :
    GoMap.getEntries (GoMap.setEntries l k v) a =
      if k = a then some v else GoMap.getEntries l a := by
  induction l with
  | nil => simp [GoMap.setEntries, GoMap.getEntries]
  | cons hd tl ih =>
    obtain ⟨k', v'⟩ := hd
    by_cases h : k' = k
    · subst h
      by_cases h2 : k' = a <;> simp [GoMap.setEntries, GoMap.getEntries, h2]
    · by_cases h2 : k' = a
      · subst h2
        have h3 : ¬ k = k' := fun e => h e.symm
        simp [GoMap.setEntries, GoMap.getEntries, h, h3]
      · simp [GoMap.setEntries, GoMap.getEntries, h, h2, ih]

theorem GoMap.get_set (m : GoMap) (k v a : String) :
    (m.set k v).get a = if k = a then some v else m.get a :=
  GoMap.getEntries_setEntries m.entries k v a

theorem GoMap.keys_set (m : GoMap) (k v : String) :
    (m.set k v).keys = if k ∈ m.keys then m.keys else m.keys ++ [k] :=
  GoMap.keys_setEntries m.entries k v

theorem GoMap.len_eq_keys_length (m : GoMap) : m.len = m.keys.length := by
  simp [GoMap.len, GoMap.keys]

/-! ## FleetDispatcher -/

/-- Text stored for a host: the error text if there is an error, else the output. -/
theorem dispatchStep_eq (exec : Server → String → Ret) (command : String)
    (m : GoMap) (s : Server) :
    dispatchStep exec command m s =
      m.set s.Address (match (exec s command).err with
        | some err => err
        | none => (exec s command).value) := by
  unfold dispatchStep
  cases h : (exec s command).err <;> simp only [h]

theorem dispatch_keys_nodup (exec : Server → String → Ret) (command : String)
    (servers : List Server) (m : GoMap) (hm : m.keys.Nodup) :
    (servers.foldl (dispatchStep exec command) m).keys.Nodup := by
  induction servers generalizing m with
  | nil => simpa using hm
  | cons s rest ih =>
    rw [List.foldl_cons]
    apply ih
    rw [dispatchStep_eq, GoMap.keys_set]
    split
    · exact hm
    · rename_i hk
      rw [List.nodup_append]
      refine ⟨hm, List.nodup_singleton _, ?_⟩
      intro a ha hb
      rw [List.mem_singleton] at hb
      subst hb
      exact hk ha

theorem dispatch_mem_keys (exec : Server → String → Ret) (command : String)
    (servers : List Server) (m : GoMap) (a : String) :
    a ∈ (servers.foldl (dispatchStep exec command) m).keys ↔
      a ∈ m.keys ∨ a ∈ servers.map Server.Address := by
  induction servers generalizing m with
  | nil => simp
  | cons s rest ih =>
    rw [List.foldl_cons, ih, dispatchStep_eq, GoMap.keys_set]
    split
    · rename_i hk
      simp only [List.map_cons, List.mem_cons]
      constructor
      · rintro (h | h)
        · exact Or.inl h
        · exact Or.inr (Or.inr h)
      · rintro (h | h | h)
        · exact Or.inl h
        · exact Or.inl (h ▸ hk)
        · exact Or.inr h
    · simp only [List.mem_append, List.mem_singleton, List.map_cons, List.mem_cons]
      tauto

theorem dispatch_get_of_not_mem (exec : Server → String → Ret) (command : String)
    (servers : List Server) (m : GoMap) (a : String)
    (ha : a ∉ servers.map Server.Address) :
    (servers.foldl (dispatchStep exec command) m).get a = m.get a := by
  induction servers generalizing m with
  | nil => rfl
  | cons s rest ih =>
    simp only [List.map_cons, List.mem_cons, not_or] at ha
    rw [List.foldl_cons, ih _ ha.2, dispatchStep_eq, GoMap.get_set]
    rw [if_neg (fun e => ha.1 e.symm)]

theorem dispatch_get_of_mem (exec : Server → String → Ret) (command : String)
    (servers : List Server) (m : GoMap)
    (hnd : (servers.map Server.Address).Nodup) (s : Server) (hs : s ∈ servers) :
    (servers.foldl (dispatchStep exec command) m).get s.Address =
      some (match (exec s command).err with
        | some err => err
        | none => (exec s command).value) := by
  induction servers generalizing m with
  | nil => cases hs
  | cons x rest ih =>
    rw [List.map_cons, List.nodup_cons] at hnd
    rw [List.foldl_cons]
    rcases List.mem_cons.1 hs with h | h
    · subst h
      rw [dispatch_get_of_not_mem _ _ _ _ _ hnd.1, dispatchStep_eq, GoMap.get_set]
      simp
    · exact ih _ hnd.2 h

theorem dispatch_len (exec : Server → String → Ret) (command : String)
    (servers : List Server) :
    (executeCommandOnServers exec command servers).len =
      (servers.map Server.Address).toFinset.card := by
  have hnd : (executeCommandOnServers exec command servers).keys.Nodup :=
    dispatch_keys_nodup exec command servers GoMap.empty (by simp [GoMap.empty, GoMap.keys])
  have hset : (executeCommandOnServers exec command servers).keys.toFinset =
      (servers.map Server.Address).toFinset := by
    ext a
    rw [List.mem_toFinset, List.mem_toFinset]
    unfold executeCommandOnServers
    rw [dispatch_mem_keys]
    simp [GoMap.empty, GoMap.keys]
  rw [GoMap.len_eq_keys_length, ← List.toFinset_card_of_nodup hnd, hset]

/-! ## Claims on the dispatcher and the executor -/

/-- C1, amended.  For every command, every list of hosts and every outcome of
the per-host executions, the result map of `executeCommandOnServers` has one
entry per distinct host address: its size is the number of distinct addresses
in the list, and it is the number of hosts when the addresses are pairwise
distinct. -/
theorem executeCommandOnServers_one_entry_per_address
    (exec : Server → String → Ret) (command : String) (servers : List Server) :
    (executeCommandOnServers exec command servers).len =
        (servers.map Server.Address).toFinset.card ∧
      ((servers.map Server.Address).Nodup →
        (executeCommandOnServers exec command servers).len = servers.length) := by
  refine ⟨dispatch_len exec command servers, fun hnd => ?_⟩
  rw [dispatch_len, List.toFinset_card_of_nodup hnd, List.length_map]

/-- Instance of C1 (amended): three hosts with distinct addresses, the second
one unreachable, give three entries. -/
theorem executeCommandOnServers_one_entry_per_address_witness :
    (executeCommandOnServers
        (fun s _ => if s.Address = "B" then ⟨"", some "failed to dial: timeout"⟩ else ⟨"up", none⟩)
        "uptime"
        [⟨1, "A", "root", "pw", GoMap.empty⟩, ⟨2, "B", "root", "pw", GoMap.empty⟩,
          ⟨3, "C", "root", "pw", GoMap.empty⟩]).len = 3 :=
  (executeCommandOnServers_one_entry_per_address _ "uptime"
    [⟨1, "A", "root", "pw", GoMap.empty⟩, ⟨2, "B", "root", "pw", GoMap.empty⟩,
      ⟨3, "C", "root", "pw", GoMap.empty⟩]).2 (by decide)

/-- C1 as stated fails: two stored hosts with the same address give a result
map with one entry, not two. -/
theorem executeCommandOnServers_duplicate_address :
    (executeCommandOnServers (fun _ _ => ⟨"up", none⟩) "uptime"
        [⟨1, "10.0.0.1", "root", "pw", GoMap.empty⟩,
          ⟨2, "10.0.0.1", "admin", "pw", GoMap.empty⟩]).len = 1 ∧
      [(⟨1, "10.0.0.1", "root", "pw", GoMap.empty⟩ : Server),
        ⟨2, "10.0.0.1", "admin", "pw", GoMap.empty⟩].length = 2 := by
  decide

/-- C2.  For every command, every list of hosts with pairwise distinct
addresses and every assignment of outcomes to `executeCommand`, the result map
holds at each host address the output of that host when its execution
succeeded and its error text when it failed (with the SSH outcomes as oracle:
`failed to dial: <reason>` for a host whose dial fails); the entry is the same
under any other assignment that agrees on this host. -/
theorem executeCommandOnServers_entry
    (exec : Server → String → Ret) (command : String) (servers : List Server)
    (hnd : (servers.map Server.Address).Nodup) (s : Server) (hs : s ∈ servers) :
    (executeCommandOnServers exec command servers).get s.Address =
        some (match (exec s command).err with
          | some err => err
          | none => (exec s command).value) ∧
      (∀ exec2 : Server → String → Ret, exec2 s command = exec s command →
        (executeCommandOnServers exec2 command servers).get s.Address =
          (executeCommandOnServers exec command servers).get s.Address) ∧
      (∀ (w : SSHWorld) (reason : String), w.dial s = some reason →
        (executeCommandOnServers (fun sv c => (executeCommand w sv c).1) command servers).get
          s.Address = some ("failed to dial: " ++ reason)) := by
  refine ⟨dispatch_get_of_mem exec command servers _ hnd s hs, ?_, ?_⟩
  · intro exec2 h2
    unfold executeCommandOnServers
    rw [dispatch_get_of_mem exec2 command servers _ hnd s hs,
      dispatch_get_of_mem exec command servers _ hnd s hs, h2]
  · intro w reason hw
    unfold executeCommandOnServers
    rw [dispatch_get_of_mem _ command servers _ hnd s hs]
    simp [executeCommand, hw]

/-- Instance of C2: hosts A, B, C with B unreachable; the entry of B is its
dial error and the entries of A and C are their outputs. -/
theorem executeCommandOnServers_entry_witness :
    (executeCommandOnServers
        (fun s _ => if s.Address = "B" then ⟨"", some "failed to dial: timeout"⟩ else ⟨"up", none⟩)
        "uptime"
        [⟨1, "A", "root", "pw", GoMap.empty⟩, ⟨2, "B", "root", "pw", GoMap.empty⟩,
          ⟨3, "C", "root", "pw", GoMap.empty⟩]).get "B" = some "failed to dial: timeout" :=
  (executeCommandOnServers_entry _ "uptime"
    [⟨1, "A", "root", "pw", GoMap.empty⟩, ⟨2, "B", "root", "pw", GoMap.empty⟩,
      ⟨3, "C", "root", "pw", GoMap.empty⟩] (by decide)
    ⟨2, "B", "root", "pw", GoMap.empty⟩ (by decide)).1

/-- C3, amended.  When the connection and the session open and the remote
command ends with an error `e` (a non-zero exit status) after producing the
combined text `t`, `executeCommand` returns the empty output and the error
`failed to run: e`; this result is the same for every `t`. -/
theorem executeCommand_run_failure (w : SSHWorld) (server : Server) (command t e : String)
    (hdial : w.dial server = none)
    (hsess : w.newSession server.Address command = none)
    (hrun : w.combinedOutput server.Address command = (t, some e)) :
    (executeCommand w server command).1 = ⟨"", some ("failed to run: " ++ e)⟩ := by
  simp [executeCommand, hdial, hsess, hrun]

/-- Instance of C3 (amended): `ls /nope` printing a message and exiting with 2. -/
theorem executeCommand_run_failure_witness :
    (executeCommand
        ⟨fun _ => none, fun _ _ => none, fun _ _ => ("ls: /nope: No such file\n", some (exitErrorText 2))⟩
        ⟨1, "10.0.0.1", "root", "pw", GoMap.empty⟩ "ls /nope").1 =
      ⟨"", some ("failed to run: " ++ exitErrorText 2)⟩ :=
  executeCommand_run_failure _ _ "ls /nope" "ls: /nope: No such file\n" (exitErrorText 2)
    rfl rfl rfl

/-- C3 as stated fails: the command prints `boom` and exits with status 1; the
returned error is `failed to run: Process exited with status 1`, which does
not contain `boom`. -/
theorem executeCommand_drops_captured_text :
    (executeCommand
        ⟨fun _ => none, fun _ _ => none, fun _ _ => ("boom", some (exitErrorText 1))⟩
        ⟨1, "10.0.0.1", "root", "pw", GoMap.empty⟩ "echo boom; exit 1").1 =
      ⟨"", some "failed to run: Process exited with status 1"⟩ ∧
    ¬ ("boom".data <:+: "failed to run: Process exited with status 1".data) := by
  constructor
  · decide
  · decide

/-! ## Parsers -/

theorem splitChars_ne_nil (sep : Char) (l : List Char) : splitChars sep l ≠ [] := by
  induction l with
  | nil => simp [splitChars]
  | cons c cs ih =>
    unfold splitChars
    split
    · simp
    · split <;> simp

theorem splitChars_length (sep : Char) (l : List Char) :
    (splitChars sep l).length = l.count sep + 1 := by
  induction l with
  | nil => simp [splitChars]
  | cons c cs ih =>
    unfold splitChars
    by_cases h : c = sep
    · subst h
      simp [ih]
    · rw [if_neg h]
      have hne := splitChars_ne_nil sep cs
      have hc : List.count sep (c :: cs) = List.count sep cs := by
        rw [List.count_cons]
        simp [h]
      cases hsp : splitChars sep cs with
      | nil => exact absurd hsp hne
      | cons x xs =>
        rw [hsp] at ih
        simp only [List.length_cons] at ih ⊢
        omega

/-- The number of lines `strings.Split(s, "\n")` gives is the number of newline
characters plus one. -/
theorem Split_length (s : String) :
    (strings.Split s '\n').length = s.data.count '\n' + 1 := by
  simp [strings.Split, splitChars_length]

theorem FindStringSubmatch_length (s : String) :
    (regexp.FindStringSubmatch s).length = 0 ∨ (regexp.FindStringSubmatch s).length = 2 := by
  unfold regexp.FindStringSubmatch
  split <;> simp

/-- The guard of `parseCpuUsage` covers its only index expression. -/
theorem parseCpuUsage_returns (fl : FloatOps) (output : String) :
    (parseCpuUsage fl output).isSome = true := by
  unfold parseCpuUsage
  rcases FindStringSubmatch_length output with h | h
  · simp [h]
  · match hm : regexp.FindStringSubmatch output, h with
    | [a, b], _ => simp

/-- Shape of the result of `parseMemory`, with the `float64` operations left
as parameters: the placeholder below two lines, else the three formatted
numbers built from the second and third field of the second line. -/
theorem parseMemory_shape (fl : FloatOps) (output : String) :
    ((strings.Split output '\n').length < 2 →
        parseMemory fl output = some "Memory info not available") ∧
      (∀ (line f1 f2 f3 : String) (rest : List String),
        (strings.Split output '\n')[1]? = some line →
        strings.Fields line = f1 :: f2 :: f3 :: rest →
        parseMemory fl output =
          some (fl.fmt2 (fl.div (fl.ofInt (strconv.Atoi f3).1) (fl.ofInt 1024)) ++ "GB/" ++
            fl.fmt2 (fl.div (fl.ofInt (strconv.Atoi f2).1) (fl.ofInt 1024)) ++ "GB (" ++
            fl.fmt2 (fl.mul (fl.div (fl.ofInt (strconv.Atoi f3).1)
              (fl.ofInt (strconv.Atoi f2).1)) (fl.ofInt 100)) ++ "%)")) := by
  refine ⟨fun h => ?_, fun line f1 f2 f3 rest hline hf => ?_⟩
  · unfold parseMemory
    simp only [if_pos h]
  · have hlen : ¬ (strings.Split output '\n').length < 2 := by
      intro hlt
      have hnone : (strings.Split output '\n')[1]? = none :=
        List.getElem?_eq_none (by omega)
      rw [hnone] at hline
      cases hline
    unfold parseMemory
    simp only [if_neg hlen, hline, Option.bind_eq_bind, Option.some_bind, hf]
    simp

/-- Shape of the result of `parseCpuUsage`, with the `float64` operations left
as parameters: the placeholder without a match, else 100 minus the number of
the leftmost match, formatted. -/
theorem parseCpuUsage_shape (fl : FloatOps) (output : String) :
    parseCpuUsage fl output =
      match regexp.findIdle output.data with
      | none => some "CPU usage info not available"
      | some g =>
        some (fl.fmt2 (fl.sub (fl.ofInt 100) (fl.ParseFloat (String.mk g))) ++ "%") := by
  unfold parseCpuUsage regexp.FindStringSubmatch
  cases regexp.findIdle output.data <;> simp

/-- The inputs on which `parseDiskUsage` panics: those with a second line of
fewer than five fields. -/
theorem parseDiskUsage_panics_iff (output : String) :
    parseDiskUsage output = none ↔
      ∃ line, (strings.Split output '\n')[1]? = some line ∧
        (strings.Fields line).length < 5 := by
  unfold parseDiskUsage
  by_cases hlen : (strings.Split output '\n').length < 2
  · have hnone : (strings.Split output '\n')[1]? = none := List.getElem?_eq_none (by omega)
    simp [hlen, hnone]
  · obtain ⟨line, hline⟩ : ∃ line, (strings.Split output '\n')[1]? = some line :=
      ⟨_, List.getElem?_eq_getElem (by omega)⟩
    simp only [if_neg hlen, hline, Option.bind_eq_bind, Option.some_bind, Option.some.injEq,
      exists_eq_left']
    rcases strings.Fields line with _ | ⟨a, _ | ⟨b, _ | ⟨c, _ | ⟨d, _ | ⟨e, r⟩⟩⟩⟩⟩ <;> simp

/-- The inputs on which `parseMemory` panics: those with a second line of fewer
than three fields. -/
theorem parseMemory_panics_iff (fl : FloatOps) (output : String) :
    parseMemory fl output = none ↔
      ∃ line, (strings.Split output '\n')[1]? = some line ∧
        (strings.Fields line).length < 3 := by
  unfold parseMemory
  by_cases hlen : (strings.Split output '\n').length < 2
  · have hnone : (strings.Split output '\n')[1]? = none := List.getElem?_eq_none (by omega)
    simp [hlen, hnone]
  · obtain ⟨line, hline⟩ : ∃ line, (strings.Split output '\n')[1]? = some line :=
      ⟨_, List.getElem?_eq_getElem (by omega)⟩
    simp only [if_neg hlen, hline, Option.bind_eq_bind, Option.some_bind, Option.some.injEq,
      exists_eq_left']
    rcases strings.Fields line with _ | ⟨a, _ | ⟨b, _ | ⟨c, r⟩⟩⟩ <;> simp

/-- C4, at failing inputs.  `parseMemory` and `parseDiskUsage` guard the number
of lines but not the number of fields of the second line: on a report whose
second line has two fields, and on a `df` report that wraps a long device name
onto its own line, an index into `fields` is out of range.  `parseCpuUsage`
returns on every input. -/
theorem parsers_index_out_of_range (fl : FloatOps) :
    parseMemory fl "total used free\nMem: 7822\n" = none ∧
      parseDiskUsage
        "Filesystem Size Used Avail Use% Mounted on\n/dev/mapper/vg0-root\n 50G 20G 28G 42% /\n" =
          none ∧
      ∀ output : String, (parseCpuUsage fl output).isSome = true :=
  ⟨rfl, by decide, parseCpuUsage_returns fl⟩

/-- What `parseDiskUsage` returns where it returns: `Disk usage info not
available` when `strings.Split` gives fewer than two pieces, that is when the
input has no newline; and, when the second piece has at least five fields
`f1 .. f5`, the text `Used: f3, Total: f2, Available: f4 (f5%)` with the fields
copied verbatim, so that `/dev/sda1 50G 20G 28G 42% /` gives
`Used: 20G, Total: 50G, Available: 28G (42%%)`. -/
theorem parseDiskUsage_reference (output : String) :
    ((strings.Split output '\n').length < 2 →
        parseDiskUsage output = some "Disk usage info not available") ∧
      (∀ (line f1 f2 f3 f4 f5 : String) (rest : List String),
        2 ≤ (strings.Split output '\n').length →
        (strings.Split output '\n')[1]? = some line →
        strings.Fields line = f1 :: f2 :: f3 :: f4 :: f5 :: rest →
        parseDiskUsage output =
          some ("Used: " ++ f3 ++ ", Total: " ++ f2 ++ ", Available: " ++ f4 ++
            " (" ++ f5 ++ "%)")) ∧
      ((strings.Split output '\n')[1]? = some "/dev/sda1 50G 20G 28G 42% /" →
        parseDiskUsage output = some "Used: 20G, Total: 50G, Available: 28G (42%%)") := by
  have key : ∀ (line f1 f2 f3 f4 f5 : String) (rest : List String),
      (strings.Split output '\n')[1]? = some line →
      strings.Fields line = f1 :: f2 :: f3 :: f4 :: f5 :: rest →
      parseDiskUsage output =
        some ("Used: " ++ f3 ++ ", Total: " ++ f2 ++ ", Available: " ++ f4 ++
          " (" ++ f5 ++ "%)") := by
    intro line f1 f2 f3 f4 f5 rest hline hf
    have hlen : ¬ (strings.Split output '\n').length < 2 := by
      intro hlt
      have hnone : (strings.Split output '\n')[1]? = none :=
        List.getElem?_eq_none (by omega)
      rw [hnone] at hline
      cases hline
    unfold parseDiskUsage
    simp only [if_neg hlen, hline, Option.bind_eq_bind, Option.some_bind, hf]
    simp
  refine ⟨fun h => ?_, fun line f1 f2 f3 f4 f5 rest _ hline hf =>
    key line f1 f2 f3 f4 f5 rest hline hf, fun hline => ?_⟩
  · unfold parseDiskUsage
    simp only [if_pos h]
  · exact key _ "/dev/sda1" "50G" "20G" "28G" "42%" ["/"] hline (by decide)

/-- Instances of `parseDiskUsage_reference`: a `df -h /` report and a text
without a newline. -/
theorem parseDiskUsage_reference_witness :
    parseDiskUsage
        "Filesystem Size Used Avail Use% Mounted on\n/dev/sda1 50G 20G 28G 42% /\n" =
      some "Used: 20G, Total: 50G, Available: 28G (42%%)" ∧
    parseDiskUsage "df: command not found" = some "Disk usage info not available" :=
  ⟨(parseDiskUsage_reference
      "Filesystem Size Used Avail Use% Mounted on\n/dev/sda1 50G 20G 28G 42% /\n").2.2
      (by decide),
    (parseDiskUsage_reference "df: command not found").1 (by decide)⟩

/-- C7, at a failing input.  A report of one line that ends in a newline has
fewer than two lines, but `strings.Split` cuts it into two pieces, the line and
an empty text: the guard `len(lines) < 2` does not hold and `fields[1]` of the
empty second piece is out of range, where the claim has the placeholder. -/
theorem parseDiskUsage_one_line_report :
    strings.Split "Filesystem Size Used Avail Use% Mounted on\n" '\n' =
        ["Filesystem Size Used Avail Use% Mounted on", ""] ∧
      parseDiskUsage "Filesystem Size Used Avail Use% Mounted on\n" = none := by
  decide

/-! ## MetricsCollector -/

theorem storeParsed_eq (fl : FloatOps) (results : GoMap) (key output : String)
    (hkey : key ∈ commands.keys) :
    storeParsed fl results key output = (parserFor fl key output).map (results.set key) := by
  simp only [commands, GoMap.keys, List.map_cons, List.map_nil, List.mem_cons,
    List.mem_singleton, List.not_mem_nil, or_false] at hkey
  rcases hkey with h | h | h | h <;> subst h <;> simp [storeParsed, parserFor]

theorem metricsLoop_snapshot (fl : FloatOps) (w : SSHWorld) (address : String)
    (l : List (String × String)) (results : GoMap) (tr : List Event)
    (hkeys : ∀ kc ∈ l, kc.1 ∈ commands.keys)
    (hnd : (l.map Prod.fst).Nodup)
    (hfresh : ∀ kc ∈ l, kc.1 ∉ results.keys)
    (hsess : ∀ kc ∈ l, w.newSession address kc.2 = none)
    (hparse : ∀ kc ∈ l, ∀ out, w.combinedOutput address kc.2 = (out, none) →
      (parserFor fl kc.1 out).isSome = true) :
    ∃ m tr2, metricsLoop fl w address l results tr = (.returned (some m, none), tr2) ∧
      m.keys = results.keys ++ l.map Prod.fst ∧
      (∀ k, k ∉ l.map Prod.fst → m.get k = results.get k) ∧
      ∀ kc ∈ l,
        (∀ out e, w.combinedOutput address kc.2 = (out, some e) → m.get kc.1 = some e) ∧
        (∀ out, w.combinedOutput address kc.2 = (out, none) →
          m.get kc.1 = parserFor fl kc.1 out) := by
  induction l generalizing results tr with
  | nil => exact ⟨results, tr, rfl, by simp, fun _ _ => rfl, fun kc h => by cases h⟩
  | cons hd rest ih =>
    obtain ⟨key, cmd⟩ := hd
    have hs : w.newSession address cmd = none := hsess (key, cmd) (List.mem_cons_self _ _)
    have hk : key ∈ commands.keys := hkeys (key, cmd) (List.mem_cons_self _ _)
    have hfk : key ∉ results.keys := hfresh (key, cmd) (List.mem_cons_self _ _)
    rw [List.map_cons, List.nodup_cons] at hnd
    -- the text stored under `key`, whatever the outcome of the run
    have step : ∃ v, (∀ tr1, metricsLoop fl w address ((key, cmd) :: rest) results tr1 =
          metricsLoop fl w address rest (results.set key v)
            (tr1 ++ [.opened (Resource.session address cmd),
              .closed (Resource.session address cmd)])) ∧
        (∀ out e, w.combinedOutput address cmd = (out, some e) → some v = some e) ∧
        (∀ out, w.combinedOutput address cmd = (out, none) →
          some v = parserFor fl key out) := by
      rcases hrun : w.combinedOutput address cmd with ⟨out, _ | e⟩
      · have hp := hparse (key, cmd) (List.mem_cons_self _ _) out hrun
        obtain ⟨v, hv⟩ := Option.isSome_iff_exists.1 hp
        refine ⟨v, fun tr1 => ?_, fun out2 e2 h2 => (by cases h2), fun out2 h2 => ?_⟩
        · simp only [metricsLoop, hs, hrun, storeParsed_eq fl results key out hk, hv,
            Option.map_some']
        · cases h2
          exact hv.symm
      · refine ⟨e, fun tr1 => ?_, fun out2 e2 h2 => (by cases h2; rfl),
          fun out2 h2 => (by cases h2)⟩
        simp only [metricsLoop, hs, hrun]
    obtain ⟨v, hloop, hverr, hvok⟩ := step
    have hkeys2 : (results.set key v).keys = results.keys ++ [key] := by
      rw [GoMap.keys_set, if_neg hfk]
    obtain ⟨m, tr2, hm, hmk, hmget, hment⟩ :=
      ih (results.set key v)
        (tr ++ [.opened (Resource.session address cmd),
          .closed (Resource.session address cmd)])
        (fun kc h => hkeys kc (List.mem_cons_of_mem _ h))
        hnd.2
        (fun kc h => by
          rw [hkeys2, List.mem_append, List.mem_singleton]
          rintro (h1 | h1)
          · exact hfresh kc (List.mem_cons_of_mem _ h) h1
          · exact hnd.1 (List.mem_map.2 ⟨kc, h, h1⟩))
        (fun kc h => hsess kc (List.mem_cons_of_mem _ h))
        (fun kc h => hparse kc (List.mem_cons_of_mem _ h))
    have hgetkey : m.get key = some v := by
      rw [hmget key hnd.1, GoMap.get_set, if_pos rfl]
    refine ⟨m, tr2, by rw [hloop, hm], ?_, ?_, ?_⟩
    · rw [hmk, hkeys2, List.map_cons, List.append_assoc, List.singleton_append]
    · intro k hk2
      rw [List.map_cons, List.mem_cons, not_or] at hk2
      rw [hmget k hk2.2, GoMap.get_set, if_neg (fun e => hk2.1 e.symm)]
    · intro kc hkc
      rcases List.mem_cons.1 hkc with h | h
      · subst h
        exact ⟨fun out e h2 => by rw [hgetkey]; exact hverr out e h2,
          fun out h2 => by rw [hgetkey]; exact hvok out h2⟩
      · exact hment kc h

theorem metricsLoop_session_failure (fl : FloatOps) (w : SSHWorld) (address : String)
    (l : List (String × String)) (results : GoMap) (tr : List Event)
    (hfail : ∃ kc ∈ l, w.newSession address kc.2 ≠ none) (m : GoMap) :
    (metricsLoop fl w address l results tr).1 ≠ .returned (some m, none) := by
  induction l generalizing results tr with
  | nil =>
    obtain ⟨kc, h, _⟩ := hfail
    cases h
  | cons hd rest ih =>
    obtain ⟨key, cmd⟩ := hd
    cases hs : w.newSession address cmd with
    | some err =>
      simp only [metricsLoop, hs]
      intro h
      cases h
    | none =>
      have hrest : ∃ kc ∈ rest, w.newSession address kc.2 ≠ none := by
        obtain ⟨kc, h, hne⟩ := hfail
        rcases List.mem_cons.1 h with h1 | h1
        · subst h1
          exact absurd hs hne
        · exact ⟨kc, h1, hne⟩
      rcases hrun : w.combinedOutput address cmd with ⟨out, _ | e⟩
      · cases hp : storeParsed fl results key out with
        | none =>
          simp only [metricsLoop, hs, hrun, hp]
          intro h
          cases h
        | some r2 =>
          simp only [metricsLoop, hs, hrun, hp]
          exact ih _ _ hrest
      · simp only [metricsLoop, hs, hrun]
        exact ih _ _ hrest

theorem commands_keys_nodup : (commands.entries.map Prod.fst).Nodup := by decide

/-- C8, amended.  In a cycle of `getServerMetrics` in which the connection
opens: if the four sessions open and the parsers return on the outputs of the
commands that succeed, then for every outcome of the four command runs the
cycle returns a snapshot whose key set is exactly uptime, memory, disk, cpu,
where the key of a failed command holds the error text of that failure and the
key of a successful command holds the output of its parser; if a session does
not open, no snapshot is returned. -/
theorem getServerMetrics_cycle (fl : FloatOps) (w : SSHWorld)
    (order : List (String × String)) (server : Server)
    (hperm : order.Perm commands.entries) (hdial : w.dial server = none) :
    ((∀ kc ∈ commands.entries, w.newSession server.Address kc.2 = none) →
      (∀ kc ∈ commands.entries, ∀ out,
        w.combinedOutput server.Address kc.2 = (out, none) →
          (parserFor fl kc.1 out).isSome = true) →
      ∃ m, (getServerMetrics fl w order server).1 = .returned (some m, none) ∧
        m.keys.Perm ["uptime", "memory", "disk", "cpu"] ∧
        ∀ kc ∈ commands.entries,
          (∀ out e, w.combinedOutput server.Address kc.2 = (out, some e) →
            m.get kc.1 = some e) ∧
          (∀ out, w.combinedOutput server.Address kc.2 = (out, none) →
            m.get kc.1 = parserFor fl kc.1 out)) ∧
    ((∃ kc ∈ commands.entries, w.newSession server.Address kc.2 ≠ none) →
      ∀ m, (getServerMetrics fl w order server).1 ≠ .returned (some m, none)) := by
  constructor
  · intro hsess hparse
    obtain ⟨m, tr2, hm, hmk, _, hment⟩ :=
      metricsLoop_snapshot fl w server.Address order GoMap.empty
        [.opened (Resource.conn server.Address)]
        (fun kc h => List.mem_map.2 ⟨kc, hperm.mem_iff.1 h, rfl⟩)
        ((hperm.map Prod.fst).nodup_iff.2 commands_keys_nodup)
        (fun kc _ => by simp [GoMap.empty, GoMap.keys])
        (fun kc h => hsess kc (hperm.mem_iff.1 h))
        (fun kc h => hparse kc (hperm.mem_iff.1 h))
    refine ⟨m, ?_, ?_, fun kc h => hment kc (hperm.mem_iff.2 h)⟩
    · simp only [getServerMetrics, hdial, hm]
    · rw [hmk]
      simpa [GoMap.empty, GoMap.keys, commands] using hperm.map Prod.fst
  · intro hfail m
    obtain ⟨kc, hkc, hne⟩ := hfail
    simp only [getServerMetrics, hdial]
    exact metricsLoop_session_failure fl w server.Address order GoMap.empty _
      ⟨kc, hperm.mem_iff.2 hkc, hne⟩ m

/-- Instance of C8 (amended): all sessions open, `free -m` fails to run. -/
theorem getServerMetrics_cycle_witness :
    ∃ m, (getServerMetrics FloatOps.symbolic sampleWorld commands.entries sampleServer).1 =
        .returned (some m, none) ∧
      m.keys.Perm ["uptime", "memory", "disk", "cpu"] ∧
      ∀ kc ∈ commands.entries,
        (∀ out e, sampleWorld.combinedOutput sampleServer.Address kc.2 = (out, some e) →
          m.get kc.1 = some e) ∧
        (∀ out, sampleWorld.combinedOutput sampleServer.Address kc.2 = (out, none) →
          m.get kc.1 = parserFor FloatOps.symbolic kc.1 out) :=
  (getServerMetrics_cycle FloatOps.symbolic sampleWorld commands.entries sampleServer
    (List.Perm.refl _) rfl).1 (by decide) (by
      intro kc hkc out hout
      simp only [commands, List.mem_cons, List.mem_singleton, List.not_mem_nil, or_false] at hkc
      rcases hkc with h | h | h | h <;> subst h
      · have : out = " 12:00:01 up 3 days\n" := by
          have h2 : sampleWorld.combinedOutput sampleServer.Address "uptime" =
              (" 12:00:01 up 3 days\n", none) := by decide
          rw [h2] at hout
          exact (Prod.mk.inj hout).1.symm
        subst this
        decide
      · have h2 : sampleWorld.combinedOutput sampleServer.Address "free -m" =
            ("bash: free: command not found\n", some (exitErrorText 127)) := by decide
        rw [h2] at hout
        cases hout
      · have : out =
            "Filesystem Size Used Avail Use% Mounted on\n/dev/sda1 50G 20G 28G 42% /\n" := by
          have h2 : sampleWorld.combinedOutput sampleServer.Address "df -h /" =
              ("Filesystem Size Used Avail Use% Mounted on\n/dev/sda1 50G 20G 28G 42% /\n",
                none) := by decide
          rw [h2] at hout
          exact (Prod.mk.inj hout).1.symm
        subst this
        decide
      · exact parseCpuUsage_returns _ _)

/-- C8 as stated fails: the connection opens and the session for `free -m` does
not; the cycle is aborted with an error and no snapshot. -/
theorem getServerMetrics_session_failure_aborts :
    (getServerMetrics FloatOps.symbolic refusingWorld commands.entries sampleServer).1 =
      .returned (none, some "failed to create session: ssh: rejected: resource shortage") := by
  decide

/-! ## Release of connections and sessions -/

theorem leaked_append (t1 t2 : List Event) (live : List Resource) :
    leaked (t1 ++ t2) live = leaked t2 (leaked t1 live) := by
  induction t1 generalizing live with
  | nil => rfl
  | cons e rest ih =>
    cases e with
    | opened r =>
      simp only [List.cons_append, leaked]
      exact ih _
    | closed r =>
      simp only [List.cons_append, leaked]
      exact ih _

theorem leaked_open_close (r : Resource) (live : List Resource) :
    leaked [.opened r, .closed r] live = live := by
  simp [leaked]

theorem metricsLoop_leaked (fl : FloatOps) (w : SSHWorld) (address : String)
    (l : List (String × String)) (results : GoMap) (tr : List Event) :
    (∀ r, (metricsLoop fl w address l results tr).1 = .returned r →
        leaked (metricsLoop fl w address l results tr).2 [] = leaked tr []) ∧
      ((metricsLoop fl w address l results tr).1 = .panicked →
        ∃ cmd, leaked (metricsLoop fl w address l results tr).2 [] =
          Resource.session address cmd :: leaked tr []) := by
  induction l generalizing results tr with
  | nil => simp [metricsLoop]
  | cons hd rest ih =>
    obtain ⟨key, cmd⟩ := hd
    have hoc : leaked (tr ++ [.opened (Resource.session address cmd),
        .closed (Resource.session address cmd)]) [] = leaked tr [] := by
      rw [leaked_append, leaked_open_close]
    cases hs : w.newSession address cmd with
    | some err => simp [metricsLoop, hs]
    | none =>
      rcases hrun : w.combinedOutput address cmd with ⟨out, _ | e⟩
      · cases hp : storeParsed fl results key out with
        | none =>
          simp only [metricsLoop, hs, hrun, hp]
          refine ⟨fun r h => (by cases h), fun _ => ⟨cmd, ?_⟩⟩
          rw [leaked_append]
          rfl
        | some r2 =>
          simp only [metricsLoop, hs, hrun, hp]
          have := ih r2 (tr ++ [.opened (Resource.session address cmd),
            .closed (Resource.session address cmd)])
          rw [hoc] at this
          exact this
      · simp only [metricsLoop, hs, hrun]
        have := ih (results.set key e) (tr ++ [.opened (Resource.session address cmd),
          .closed (Resource.session address cmd)])
        rw [hoc] at this
        exact this

/-- Over the trace of open and close events, for every outcome of dialing,
session creation and command execution: `executeCommand` returns with every
connection and session closed; when `getServerMetrics` returns, every
connection and session it opened has been closed; and when it panics,
the deferred close still releases the connection. -/
theorem opened_resources_closed (fl : FloatOps) (w : SSHWorld)
    (order : List (String × String)) (server : Server) (command : String) :
    leaked (executeCommand w server command).2 [] = [] ∧
      (∀ r, (getServerMetrics fl w order server).1 = .returned r →
        leaked (getServerMetrics fl w order server).2 [] = []) ∧
      Resource.conn server.Address ∉ leaked (getServerMetrics fl w order server).2 [] := by
  refine ⟨?_, ?_, ?_⟩
  · unfold executeCommand
    cases w.dial server with
    | some err => rfl
    | none =>
      cases w.newSession server.Address command with
      | some err => simp [leaked]
      | none =>
        rcases w.combinedOutput server.Address command with ⟨out, _ | e⟩ <;>
          simp [leaked]
  · intro r hr
    unfold getServerMetrics at hr ⊢
    cases hd : w.dial server with
    | some err => rfl
    | none =>
      rw [hd] at hr
      simp only at hr ⊢
      rw [leaked_append,
        (metricsLoop_leaked fl w server.Address order GoMap.empty _).1 r hr]
      simp [leaked]
  · unfold getServerMetrics
    cases hd : w.dial server with
    | some err => simp [leaked]
    | none =>
      simp only
      rw [leaked_append]
      cases hout : (metricsLoop fl w server.Address order GoMap.empty
          [.opened (Resource.conn server.Address)]).1 with
      | returned r =>
        rw [(metricsLoop_leaked fl w server.Address order GoMap.empty _).1 r hout]
        simp [leaked]
      | panicked =>
        obtain ⟨cmd, hc⟩ :=
          (metricsLoop_leaked fl w server.Address order GoMap.empty _).2 hout
        rw [hc]
        simp [leaked]

/-- Instance of `opened_resources_closed`: a metrics cycle that returns a
snapshot. -/
theorem opened_resources_closed_witness :
    leaked (getServerMetrics FloatOps.symbolic sampleWorld commands.entries sampleServer).2 [] =
      [] :=
  (opened_resources_closed FloatOps.symbolic sampleWorld commands.entries sampleServer
    "uptime").2.1
    (some ⟨[("uptime", "12:00:01 up 3 days"), ("memory", "Process exited with status 127"),
      ("disk", "Used: 20G, Total: 50G, Available: 28G (42%%)"),
      ("cpu", "CPU usage info not available")]⟩, none)
    (by decide)

/-- C9, at a failing input.  The host answers `df -h /` with a report whose
second line has one field.  `parseDiskUsage` panics inside the loop of
`getServerMetrics`, the `session.Close()` at the end of the iteration is not
reached (it is not deferred, unlike the one of `executeCommand`), and the
trace ends with the session of `df -h /` opened and never closed; only
the deferred `conn.Close()` runs. -/
theorem getServerMetrics_panic_leaves_session_open :
    getServerMetrics FloatOps.symbolic wrappingWorld commands.entries sampleServer =
        (.panicked,
          [.opened (.conn "10.0.0.1"),
            .opened (.session "10.0.0.1" "uptime"), .closed (.session "10.0.0.1" "uptime"),
            .opened (.session "10.0.0.1" "free -m"), .closed (.session "10.0.0.1" "free -m"),
            .opened (.session "10.0.0.1" "df -h /"),
            .closed (.conn "10.0.0.1")]) ∧
      leaked (getServerMetrics FloatOps.symbolic wrappingWorld commands.entries
        sampleServer).2 [] = [.session "10.0.0.1" "df -h /"] := by
  decide

/-! ## TerminalBridge pumps -/

theorem stdinPump_eq (writeErr : Nat → Option Nat) (hw : ∀ i, writeErr i = none)
    (recvs : List RecvResult) (i : Nat) :
    stdinPump writeErr recvs i =
      ((recvs.takeWhile (fun r => r.err.isNone)).map RecvResult.msg).flatten := by
  induction recvs generalizing i with
  | nil => rfl
  | cons r rest ih =>
    cases he : r.err with
    | some e => simp [stdinPump, he, List.takeWhile]
    | none => simp [stdinPump, he, hw i, List.takeWhile, ih]

theorem stdoutPump_eq (sendErr : Nat → Option String) (hs : ∀ i, sendErr i = none)
    (reads : List ReadResult) (i : Nat) :
    stdoutPump sendErr reads i =
      (reads.takeWhile (fun r => r.err.isNone)).map ReadResult.data := by
  induction reads generalizing i with
  | nil => rfl
  | cons r rest ih =>
    cases he : r.err with
    | some e => simp [stdoutPump, he, List.takeWhile]
    | none => simp [stdoutPump, he, hs i, List.takeWhile, ih]

/-- C10, amended.  Over sequences of read results, with the writes to the
remote input stream and the sends on the channel succeeding: the bytes written
to the remote input stream are the concatenation, in order, of the messages
received before the first failing `ReadMessage`; the messages sent on the
channel are, in order, the chunks returned by the calls of `stdout.Read` that
come before the first call reporting an error, so their concatenation is the
concatenation of those chunks, and each has at most 1024 bytes when every
read returns at most the size of the buffer. -/
theorem pumps_forward_in_order (writeErr : Nat → Option Nat) (sendErr : Nat → Option String)
    (recvs : List RecvResult) (reads : List ReadResult)
    (hw : ∀ i, writeErr i = none) (hs : ∀ i, sendErr i = none)
    (hbuf : ∀ r ∈ reads, r.data.length ≤ bufSize) :
    stdinPump writeErr recvs 0 =
        ((recvs.takeWhile (fun r => r.err.isNone)).map RecvResult.msg).flatten ∧
      stdoutPump sendErr reads 0 =
        (reads.takeWhile (fun r => r.err.isNone)).map ReadResult.data ∧
      (stdoutPump sendErr reads 0).flatten =
        ((reads.takeWhile (fun r => r.err.isNone)).map ReadResult.data).flatten ∧
      ∀ m ∈ stdoutPump sendErr reads 0, m.length ≤ 1024 := by
  refine ⟨stdinPump_eq writeErr hw recvs 0, stdoutPump_eq sendErr hs reads 0, ?_, ?_⟩
  · rw [stdoutPump_eq sendErr hs reads 0]
  · intro m hm
    rw [stdoutPump_eq sendErr hs reads 0, List.mem_map] at hm
    obtain ⟨r, hr, rfl⟩ := hm
    exact hbuf r (List.takeWhile_subset _ hr)

/-- Instance of C10 (amended): two messages and two chunks, then a failure. -/
theorem pumps_forward_in_order_witness :
    stdinPump (fun _ => none) [⟨[108, 115], none⟩, ⟨[10], none⟩, ⟨[], some "closed"⟩] 0 =
        [108, 115, 10] ∧
      stdoutPump (fun _ => none) [⟨[97, 98], none⟩, ⟨[99], none⟩, ⟨[], some "EOF"⟩] 0 =
        [[97, 98], [99]] :=
  ⟨(pumps_forward_in_order (fun _ => none) (fun _ => none)
      [⟨[108, 115], none⟩, ⟨[10], none⟩, ⟨[], some "closed"⟩]
      [⟨[97, 98], none⟩, ⟨[99], none⟩, ⟨[], some "EOF"⟩]
      (fun _ => rfl) (fun _ => rfl) (by decide)).1,
    (pumps_forward_in_order (fun _ => none) (fun _ => none)
      [⟨[108, 115], none⟩, ⟨[10], none⟩, ⟨[], some "closed"⟩]
      [⟨[97, 98], none⟩, ⟨[99], none⟩, ⟨[], some "EOF"⟩]
      (fun _ => rfl) (fun _ => rfl) (by decide)).2.1⟩

/-- C10 as stated fails: a call of `stdout.Read` that returns two bytes together
with an error ends the pump, and the two bytes are not sent. -/
theorem stdoutPump_drops_bytes_read_with_error :
    (stdoutPump (fun _ => none) [⟨[104, 105], some "EOF"⟩] 0).flatten = [] ∧
      (([⟨[104, 105], some "EOF"⟩] : List ReadResult).map ReadResult.data).flatten =
        [104, 105] := by
  decide

/-! ## Facts about the `float64` model -/

theorem bitLen_zero (fuel : Nat) : bitLen fuel 0 = 0 := by
  cases fuel <;> simp [bitLen]

theorem bitLen_bounds (fuel n : Nat) (hf : n ≤ fuel) (hn : n ≠ 0) :
    2 ^ bitLen fuel n ≤ 2 * n ∧ n < 2 ^ bitLen fuel n := by
  induction fuel generalizing n with
  | zero => omega
  | succ f ih =>
    simp only [bitLen, if_neg hn]
    by_cases h2 : n / 2 = 0
    · have h1 : n = 1 := by omega
      subst h1
      simp [bitLen_zero]
    · have := ih (n / 2) (by omega) h2
      rw [pow_succ]
      omega

theorem scale_snd_pos (p q : Nat) (e : Int) (hq : 0 < q) : 0 < (scale p q e).2 := by
  cases e with
  | ofNat k => exact Nat.mul_pos hq (by positivity)
  | negSucc k => exact hq

theorem scale_val (p q : Nat) (e : Int) (hq : 0 < q) :
    ((scale p q e).1 : ℚ) / ((scale p q e).2 : ℚ) = (p : ℚ) / q / (2 : ℚ) ^ e := by
  have hq' : (q : ℚ) ≠ 0 := by exact_mod_cast hq.ne'
  cases e with
  | ofNat k =>
    simp only [scale, Int.ofNat_eq_coe, zpow_natCast]
    push_cast
    field_simp
  | negSucc k =>
    simp only [scale, zpow_negSucc]
    push_cast
    field_simp

theorem scale_le_iff (p q : Nat) (e : Int) (hq : 0 < q) :
    (scale p q e).2 ≤ (scale p q e).1 ↔ (2 : ℚ) ^ e ≤ (p : ℚ) / q := by
  have hd : (0 : ℚ) < ((scale p q e).2 : ℚ) := by exact_mod_cast scale_snd_pos p q e hq
  have h2 : (0 : ℚ) < (2 : ℚ) ^ e := zpow_pos (by norm_num) e
  rw [← Nat.cast_le (α := ℚ), ← one_le_div hd, scale_val p q e hq, le_div_iff₀ h2, one_mul]

theorem floorLog2_le (p q : Nat) (hp : 0 < p) (hq : 0 < q) :
    (2 : ℚ) ^ floorLog2 p q ≤ (p : ℚ) / q := by
  unfold floorLog2
  simp only
  split
  · rename_i h
    exact (scale_le_iff p q _ hq).1 h
  · have hbp := (bitLen_bounds p p le_rfl hp.ne').1
    have hbq := (bitLen_bounds q q le_rfl hq.ne').2
    have hq' : (0 : ℚ) < q := by exact_mod_cast hq
    have h1 : (2 : ℚ) ^ (bitLen p p) ≤ 2 * p := by exact_mod_cast hbp
    have h2 : (q : ℚ) < 2 ^ (bitLen q q) := by exact_mod_cast hbq
    rw [le_div_iff₀ hq']
    have e1 : (2 : ℚ) ^ ((bitLen p p : Int) - (bitLen q q : Int) - 1) =
        2 ^ (bitLen p p) / 2 ^ (bitLen q q) / 2 := by
      rw [zpow_sub₀ (by norm_num), zpow_sub₀ (by norm_num), zpow_natCast, zpow_natCast, zpow_one]
    rw [e1]
    have h3 : (0 : ℚ) < 2 ^ (bitLen q q) := by positivity
    rw [div_div, div_mul_eq_mul_div, div_le_iff₀ (by positivity)]
    nlinarith

theorem roundHalfEven_mul_right (c q : Nat) (hq : 0 < q) : roundHalfEven (c * q) q = c := by
  unfold roundHalfEven
  rw [Nat.mul_mod_left, Nat.mul_div_cancel _ hq]
  simp [hq]

theorem roundHalfEven_scale (a d c : Nat) (hc : 0 < c) :
    roundHalfEven (a * c) (d * c) = roundHalfEven a d := by
  unfold roundHalfEven
  rw [Nat.mul_mod_mul_right, Nat.mul_div_mul_right _ _ hc]
  have e1 : 2 * (a % d * c) < d * c ↔ 2 * (a % d) < d := by
    rw [← Nat.mul_assoc]
    exact Nat.mul_lt_mul_right hc
  have e2 : d * c < 2 * (a % d * c) ↔ d < 2 * (a % d) := by
    rw [← Nat.mul_assoc]
    exact Nat.mul_lt_mul_right hc
  simp only [e1, e2]

theorem roundHalfEven_congr (a d b f : Nat) (hd : 0 < d) (hf : 0 < f) (h : a * f = b * d) :
    roundHalfEven a d = roundHalfEven b f := by
  rw [← roundHalfEven_scale a d f hf, ← roundHalfEven_scale b f d hd, h, Nat.mul_comm d f]

theorem decimal2_congr (neg : Bool) (a d b f : Nat) (hd : 0 < d) (hf : 0 < f)
    (h : a * f = b * d) : decimal2 neg a d = decimal2 neg b f := by
  unfold decimal2
  rw [roundHalfEven_congr (100 * a) d (100 * b) f hd hf (by rw [Nat.mul_assoc, h, Nat.mul_assoc])]

theorem scale_neg (p q j : Nat) : scale p q (-(j : Int)) = (p * 2 ^ j, q) := by
  cases j with
  | zero => simp [scale]
  | succ n => rfl

theorem fmt2_finite (neg : Bool) (m : Nat) (e : Int) (P Q : Nat) (hQ : 0 < Q)
    (hv : (m : ℚ) * (2 : ℚ) ^ e = (P : ℚ) / Q) :
    Float64.fmt2 (.finite neg m e) = decimal2 neg P Q := by
  unfold Float64.fmt2
  have hd := scale_snd_pos m 1 (-e) Nat.one_pos
  apply decimal2_congr neg _ _ _ _ hd hQ
  have hval := scale_val m 1 (-e) Nat.one_pos
  have hd' : ((scale m 1 (-e)).2 : ℚ) ≠ 0 := by exact_mod_cast hd.ne'
  have hQ' : (Q : ℚ) ≠ 0 := by exact_mod_cast hQ.ne'
  have h2 : (2 : ℚ) ^ e ≠ 0 := zpow_ne_zero _ (by norm_num)
  rw [zpow_neg, Nat.cast_one, div_one, div_inv_eq_mul, hv, div_eq_div_iff hd' hQ'] at hval
  exact_mod_cast hval

theorem roundRat_exact (neg : Bool) (p q a k : Nat) (hq : 0 < q) (ha : a < 2 ^ 53)
    (hk : k ≤ 1074) (h : p * 2 ^ k = a * q) :
    ∃ m e, Float64.roundRat neg p q = .finite neg m e ∧
      (m : ℚ) * (2 : ℚ) ^ e = (p : ℚ) / q := by
  by_cases hp : p = 0
  · subst hp
    exact ⟨0, 0, by simp [Float64.roundRat], by simp⟩
  · have hp' : 0 < p := Nat.pos_of_ne_zero hp
    have hq' : (q : ℚ) ≠ 0 := by exact_mod_cast hq.ne'
    have hpq : (p : ℚ) / q = (a : ℚ) / 2 ^ k := by
      rw [div_eq_div_iff hq' (by positivity)]
      exact_mod_cast h
    -- the exponent chosen by `roundRat` is at most `-k`
    have hfl : floorLog2 p q - 52 ≤ -(k : Int) := by
      have h1 := floorLog2_le p q hp' hq
      have h2 : (p : ℚ) / q < (2 : ℚ) ^ ((53 : Int) - k) := by
        rw [hpq, zpow_sub₀ (by norm_num), zpow_natCast]
        have : (a : ℚ) < 2 ^ 53 := by exact_mod_cast ha
        have hk2 : (0 : ℚ) < 2 ^ k := by positivity
        rw [div_lt_div_iff_of_pos_right hk2]
        exact_mod_cast this
      have h3 := lt_of_le_of_lt h1 h2
      have h4 := (zpow_lt_zpow_iff_right₀ (by norm_num : (1 : ℚ) < 2)).1 h3
      omega
    obtain ⟨j, hj⟩ : ∃ j : Nat, max (floorLog2 p q - 52) (-1074) = -(j : Int) :=
      Int.exists_eq_neg_ofNat (by omega)
    have hkj : k ≤ j := by omega
    have hm : roundHalfEven (p * 2 ^ j) q = a * 2 ^ (j - k) := by
      have : p * 2 ^ j = a * 2 ^ (j - k) * q := by
        calc p * 2 ^ j = p * 2 ^ k * 2 ^ (j - k) := by
              rw [Nat.mul_assoc, ← pow_add, Nat.add_sub_cancel' hkj]
          _ = a * 2 ^ (j - k) * q := by rw [h]; ring
      rw [this, roundHalfEven_mul_right _ _ hq]
    refine ⟨a * 2 ^ (j - k), -(j : Int), ?_, ?_⟩
    · unfold Float64.roundRat
      simp only [if_neg hp, hj, scale_neg, hm]
      have h1 : ¬ (971 : Int) < -(j : Int) := by omega
      have h2 : ¬ (-(j : Int) = 971) := by omega
      simp [h1, h2]
    · rw [hpq, zpow_neg, zpow_natCast]
      push_cast
      have hk2 : (2 : ℚ) ^ k ≠ 0 := by positivity
      have hj2 : (2 : ℚ) ^ j ≠ 0 := by positivity
      field_simp
      rw [mul_assoc, ← pow_add, Nat.sub_add_cancel hkj]

theorem ofInt_exact (v : Int) (hv : v.natAbs < 2 ^ 53) :
    ∃ m e, Float64.ofInt v = .finite (decide (v < 0)) m e ∧
      (m : ℚ) * (2 : ℚ) ^ e = (v.natAbs : ℚ) := by
  obtain ⟨m, e, h1, h2⟩ :=
    roundRat_exact (decide (v < 0)) v.natAbs 1 v.natAbs 0 Nat.one_pos hv (by omega) (by simp)
  exact ⟨m, e, h1, by simpa using h2⟩

theorem ofInt_1024 : Float64.ofInt 1024 = .finite false (2 ^ 52) (-42) := by decide

theorem div_1024_exact (s : Bool) (m : Nat) (e : Int) (A : Nat) (hA : A < 2 ^ 53)
    (hv : (m : ℚ) * (2 : ℚ) ^ e = (A : ℚ)) :
    Float64.fmt2 (Float64.div (.finite s m e) (Float64.ofInt 1024)) = decimal2 s A 1024 := by
  rw [ofInt_1024]
  have hq := scale_snd_pos m (2 ^ 52) (-42 - e) (by positivity)
  have hval := scale_val m (2 ^ 52) (-42 - e) (by positivity)
  have hq' : ((scale m (2 ^ 52) (-42 - e)).2 : ℚ) ≠ 0 := by exact_mod_cast hq.ne'
  have h2e : (2 : ℚ) ^ e ≠ 0 := zpow_ne_zero _ (by norm_num)
  have hcross : (scale m (2 ^ 52) (-42 - e)).1 * 2 ^ 10 = A * (scale m (2 ^ 52) (-42 - e)).2 := by
    have : ((scale m (2 ^ 52) (-42 - e)).1 : ℚ) / ((scale m (2 ^ 52) (-42 - e)).2 : ℚ) =
        (A : ℚ) / 2 ^ 10 := by
      rw [hval, ← hv, zpow_sub₀ (by norm_num), zpow_neg]
      push_cast
      field_simp
      norm_num
      ring
    rw [div_eq_div_iff hq' (by norm_num)] at this
    exact_mod_cast this
  obtain ⟨m2, e2, hr, hv2⟩ :=
    roundRat_exact (s != false) _ _ A 10 hq hA (by norm_num) hcross
  have hdiv : Float64.div (.finite s m e) (.finite false (2 ^ 52) (-42)) =
      .finite (s != false) m2 e2 := by
    simp only [Float64.div]
    rw [if_neg (by norm_num), hr]
  rw [hdiv]
  have hs : (s != false) = s := by cases s <;> rfl
  rw [hs]
  apply fmt2_finite s m2 e2 A 1024 (by norm_num)
  rw [hv2, hval, ← hv, zpow_sub₀ (by norm_num), zpow_neg]
  push_cast
  field_simp
  norm_num
  ring

/-- For an integer below `2 ^ 53` in absolute value, `float64(v) / 1024` printed
with `%.2f` is `v / 1024` rounded to two decimals. -/
theorem fmt2_div_1024 (v : Int) (hv : v.natAbs < 2 ^ 53) :
    Float64.fmt2 (Float64.div (Float64.ofInt v) (Float64.ofInt 1024)) =
      decimal2 (decide (v < 0)) v.natAbs 1024 := by
  obtain ⟨m, e, h1, h2⟩ := ofInt_exact v hv
  rw [h1]
  exact div_1024_exact _ m e v.natAbs hv h2

/-! ## `strconv.Atoi` on decimal integers -/

theorem digitsValue_le (l : List Char) (acc v : Nat) (h : digitsValue l acc = some v) :
    acc ≤ v := by
  induction l generalizing acc with
  | nil =>
    simp only [digitsValue, Option.some.injEq] at h
    omega
  | cons c cs ih =>
    unfold digitsValue at h
    split at h
    · have := ih _ h
      omega
    · cases h

theorem digitsOverflow_eq_false (l : List Char) (acc v : Nat)
    (h : digitsValue l acc = some v) (hv : v < 2 ^ 64) : digitsOverflow l acc = false := by
  induction l generalizing acc with
  | nil => rfl
  | cons c cs ih =>
    unfold digitsValue at h
    unfold digitsOverflow
    split at h
    · rename_i hc
      have hle := digitsValue_le _ _ _ h
      rw [if_pos hc, if_neg (by omega)]
      exact ih _ h
    · cases h

theorem Atoi_body (neg : Bool) (ds : List Char) (u : Nat) (hne : ds ≠ [])
    (hd : digitsValue ds 0 = some u) (hu : if neg then u ≤ 2 ^ 63 else u < 2 ^ 63) :
    (if ds = [] then ((0 : Int), true)
      else if digitsOverflow ds 0 then (if neg then -(2 ^ 63 : Int) else 2 ^ 63 - 1, true)
      else
        match digitsValue ds 0 with
        | none => (0, true)
        | some un =>
          if !neg && 2 ^ 63 ≤ un then (2 ^ 63 - 1, true)
          else if neg && 2 ^ 63 < un then (-(2 ^ 63 : Int), true)
          else (if neg then -(un : Int) else (un : Int), false)) =
      (if neg then -(u : Int) else (u : Int), false) := by
  have hov : digitsOverflow ds 0 = false :=
    digitsOverflow_eq_false ds 0 u hd (by cases neg <;> simp at hu <;> omega)
  rw [if_neg hne, hov, hd]
  cases neg
  · simp only [Bool.false_eq_true, if_false] at hu
    simp
    omega
  · simp only [if_true] at hu
    simp
    omega

/-- On a decimal integer within the range of `int64`, `strconv.Atoi` returns
its value and no error. -/
theorem Atoi_decimal (s : String) (v : Int) (h : decimalValue s = some v)
    (hlo : -(2 ^ 63 : Int) ≤ v) (hhi : v < 2 ^ 63) : strconv.Atoi s = (v, false) := by
  unfold decimalValue at h
  unfold strconv.Atoi
  split at h
  · rename_i ds hdata
    split at h
    · cases h
    · rename_i hne
      cases hd : digitsValue ds 0 with
      | none => simp [hd] at h
      | some u =>
        have hv : v = -(u : Int) := by simpa [hd] using h.symm
        subst hv
        have := Atoi_body true ds u hne hd (by simp only [if_true]; omega)
        simp only [hdata, List.head?_cons, List.tail_cons]
        simpa using this
  · rename_i ds hdata
    split at h
    · cases h
    · rename_i hne
      cases hd : digitsValue ds 0 with
      | none => simp [hd] at h
      | some u =>
        have hv : v = (u : Int) := by simpa [hd] using h.symm
        subst hv
        have := Atoi_body false ds u hne hd (by simp only [Bool.false_eq_true, if_false]; omega)
        simp only [hdata, List.head?_cons, List.tail_cons]
        simpa using this
  · rename_i ds hminus hplus
    split at h
    · cases h
    · rename_i hne
      cases hd : digitsValue s.data 0 with
      | none => simp [hd] at h
      | some u =>
        have hv : v = (u : Int) := by simpa [hd] using h.symm
        subst hv
        have := Atoi_body false s.data u hne hd (by simp only [Bool.false_eq_true, if_false]; omega)
        have h1 : s.data.head? ≠ some '-' := by
          intro hh
          cases hs : s.data with
          | nil => simp [hs] at hh
          | cons c cs =>
            rw [hs] at hh
            simp only [List.head?_cons, Option.some.injEq] at hh
            exact hminus cs (by rw [hs, hh])
        have h2 : s.data.head? ≠ some '+' := by
          intro hh
          cases hs : s.data with
          | nil => simp [hs] at hh
          | cons c cs =>
            rw [hs] at hh
            simp only [List.head?_cons, Option.some.injEq] at hh
            exact hplus cs (by rw [hs, hh])
        simpa [h1, h2] using this

/-! ## `parseMemory` on `float64` -/

theorem Split_length_lt_two (s : String) :
    (strings.Split s '\n').length < 2 ↔ '\n' ∉ s.data := by
  rw [Split_length, ← List.count_eq_zero]
  omega

/-- C5, amended.  With the `float64` arithmetic of Go: `parseMemory` returns
`Memory info not available` on every input without a newline; on every input
whose second line has as second and third fields decimal integers `T` and `U`
within the range of `int64`, with `T > 0`, it returns the text
`<a>GB/<b>GB (<p>%)` where `a`, `b` and `p` are the `%.2f` renderings of the
`float64` values `float64(U)/1024`, `float64(T)/1024` and
`float64(U)/float64(T)*100`; when `T` and `U` are below `2 ^ 53` in absolute
value, `a` and `b` are `U / 1024` and `T / 1024` rounded to two decimals. -/
theorem parseMemory_float64 (output line f1 f2 f3 : String) (rest : List String)
    (T : Nat) (U : Int) :
    ('\n' ∉ output.data → parseMemory float64 output = some "Memory info not available") ∧
      ((strings.Split output '\n')[1]? = some line →
        strings.Fields line = f1 :: f2 :: f3 :: rest →
        decimalValue f2 = some (T : Int) → decimalValue f3 = some U →
        0 < T → T < 2 ^ 63 → -(2 ^ 63 : Int) ≤ U → U < 2 ^ 63 →
        parseMemory float64 output =
            some (Float64.fmt2 (Float64.div (Float64.ofInt U) (Float64.ofInt 1024)) ++ "GB/" ++
              Float64.fmt2 (Float64.div (Float64.ofInt T) (Float64.ofInt 1024)) ++ "GB (" ++
              Float64.fmt2 (Float64.mul (Float64.div (Float64.ofInt U) (Float64.ofInt T))
                (Float64.ofInt 100)) ++ "%)") ∧
          (T < 2 ^ 53 → U.natAbs < 2 ^ 53 →
            parseMemory float64 output =
              some (decimal2 (decide (U < 0)) U.natAbs 1024 ++ "GB/" ++
                decimal2 false T 1024 ++ "GB (" ++
                Float64.fmt2 (Float64.mul (Float64.div (Float64.ofInt U) (Float64.ofInt T))
                  (Float64.ofInt 100)) ++ "%)"))) := by
  refine ⟨fun h => (parseMemory_shape float64 output).1 ((Split_length_lt_two output).2 h),
    fun hline hf hT hU hTpos hThi hUlo hUhi => ?_⟩
  have hmain := (parseMemory_shape float64 output).2 line f1 f2 f3 rest hline hf
  rw [Atoi_decimal f2 T hT (by omega) (by exact_mod_cast hThi),
    Atoi_decimal f3 U hU hUlo hUhi] at hmain
  have hmain2 : parseMemory float64 output =
      some (Float64.fmt2 (Float64.div (Float64.ofInt U) (Float64.ofInt 1024)) ++ "GB/" ++
        Float64.fmt2 (Float64.div (Float64.ofInt T) (Float64.ofInt 1024)) ++ "GB (" ++
        Float64.fmt2 (Float64.mul (Float64.div (Float64.ofInt U) (Float64.ofInt T))
          (Float64.ofInt 100)) ++ "%)") := hmain
  refine ⟨hmain2, fun hT53 hU53 => ?_⟩
  rw [hmain2]
  have e1 := fmt2_div_1024 U hU53
  have e2 := fmt2_div_1024 (T : Int) (by simpa using hT53)
  have hTneg : decide ((T : Int) < 0) = false := by simp
  rw [hTneg, Int.natAbs_ofNat] at e2
  rw [e1, e2]

/-! ## `parseCpuUsage` on `float64` -/

theorem takeWhile_digits (ip : List Char) (c : Char) (rest : List Char)
    (h : ∀ x ∈ ip, isDigit x = true) (hc : isDigit c = false) :
    (ip ++ c :: rest).takeWhile isDigit = ip ∧ (ip ++ c :: rest).dropWhile isDigit = c :: rest := by
  induction ip with
  | nil => simp [List.takeWhile, List.dropWhile, hc]
  | cons x xs ih =>
    have hx : isDigit x = true := h x (List.mem_cons_self _ _)
    have := ih (fun y hy => h y (List.mem_cons_of_mem _ hy))
    simp [List.takeWhile, List.dropWhile, hx, this]

theorem digitsValue_isSome (l : List Char) (acc : Nat) (h : ∀ x ∈ l, isDigit x = true) :
    ∃ v, digitsValue l acc = some v := by
  induction l generalizing acc with
  | nil => exact ⟨acc, rfl⟩
  | cons x xs ih =>
    have hx : isDigit x = true := h x (List.mem_cons_self _ _)
    simp only [digitsValue, hx, if_true]
    exact ih _ (fun y hy => h y (List.mem_cons_of_mem _ hy))

theorem matchIdleAt_of_occurrence (ip fp post : List Char) (hip : ip ≠ []) (hfp : fp ≠ [])
    (hi : ∀ c ∈ ip, isDigit c = true) (hf : ∀ c ∈ fp, isDigit c = true) :
    regexp.matchIdleAt (ip ++ '.' :: (fp ++ ' ' :: 'i' :: 'd' :: post)) =
      some (ip ++ '.' :: fp) := by
  have h1 := takeWhile_digits ip '.' (fp ++ ' ' :: 'i' :: 'd' :: post) hi (by decide)
  have h2 := takeWhile_digits fp ' ' ('i' :: 'd' :: post) hf (by decide)
  unfold regexp.matchIdleAt
  simp only [h1.1, h1.2, h2.1, h2.2, if_neg hip, if_neg hfp]

theorem occurrence_of_matchIdleAt (t g : List Char) (h : regexp.matchIdleAt t = some g) :
    ∃ ip fp post, t = ip ++ '.' :: (fp ++ ' ' :: 'i' :: 'd' :: post) ∧ ip ≠ [] ∧ fp ≠ [] ∧
      (∀ c ∈ ip, isDigit c = true) ∧ (∀ c ∈ fp, isDigit c = true) ∧ g = ip ++ '.' :: fp := by
  unfold regexp.matchIdleAt at h
  simp only at h
  split at h
  · cases h
  · rename_i hip
    split at h
    · rename_i r hr
      split at h
      · cases h
      · rename_i hfp
        split at h
        · rename_i post hpost
          refine ⟨t.takeWhile isDigit, r.takeWhile isDigit, post, ?_, hip, hfp,
            fun c hc => List.mem_takeWhile_imp hc, fun c hc => List.mem_takeWhile_imp hc,
            (Option.some.inj h).symm⟩
          conv_lhs => rw [← List.takeWhile_append_dropWhile isDigit t, hr,
            ← List.takeWhile_append_dropWhile isDigit r, hpost]
        · cases h
    · cases h

theorem findIdle_eq_none (s : List Char) (h : regexp.findIdle s = none) (pre t : List Char)
    (hs : s = pre ++ t) : regexp.matchIdleAt t = none := by
  induction s generalizing pre with
  | nil =>
    have h2 := List.append_eq_nil.1 hs.symm
    rw [h2.2]
    rfl
  | cons c cs ih =>
    unfold regexp.findIdle at h
    split at h
    · cases h
    · rename_i hm
      cases pre with
      | nil =>
        rw [List.nil_append] at hs
        rw [← hs]
        exact hm
      | cons x xs =>
        rw [List.cons_append, List.cons.injEq] at hs
        exact ih h xs hs.2

theorem findIdle_eq_some (s g : List Char) (h : regexp.findIdle s = some g) :
    ∃ pre t, s = pre ++ t ∧ regexp.matchIdleAt t = some g ∧
      ∀ pre2 t2, s = pre2 ++ t2 → pre2.length < pre.length → regexp.matchIdleAt t2 = none := by
  induction s with
  | nil => cases h
  | cons c cs ih =>
    unfold regexp.findIdle at h
    split at h
    · rename_i g2 hm
      cases h
      exact ⟨[], c :: cs, rfl, hm, fun _ _ _ hl => absurd hl (Nat.not_lt_zero _)⟩
    · rename_i hm
      obtain ⟨pre, t, hs, ht, hleft⟩ := ih h
      refine ⟨c :: pre, t, by rw [hs, List.cons_append], ht, fun pre2 t2 hs2 hl => ?_⟩
      cases pre2 with
      | nil =>
        rw [List.nil_append] at hs2
        rw [← hs2]
        exact hm
      | cons x xs =>
        rw [List.cons_append, List.cons.injEq] at hs2
        exact hleft xs t2 hs2.2 (by simpa using hl)

theorem findIdle_of_leftmost (pre t g : List Char) (ht : regexp.matchIdleAt t = some g)
    (hleft : ∀ pre2 t2, pre ++ t = pre2 ++ t2 → pre2.length < pre.length →
      regexp.matchIdleAt t2 = none) :
    regexp.findIdle (pre ++ t) = some g := by
  induction pre with
  | nil =>
    rw [List.nil_append]
    cases t with
    | nil => cases ht
    | cons c cs =>
      unfold regexp.findIdle
      rw [ht]
  | cons x xs ih =>
    have h0 : regexp.matchIdleAt (x :: xs ++ t) = none :=
      hleft [] (x :: xs ++ t) rfl (by simp)
    rw [List.cons_append] at h0 ⊢
    unfold regexp.findIdle
    rw [h0]
    exact ih (fun pre2 t2 hs hl =>
      hleft (x :: pre2) t2 (by rw [List.cons_append, List.cons_append, hs]) (by simpa using hl))

theorem ParseFloat_decimal (ip fp : List Char) (v : Nat) (hip : ip ≠ []) (hfp : fp ≠ [])
    (hi : ∀ c ∈ ip, isDigit c = true) (hv : digitsValue (ip ++ fp) 0 = some v) :
    Float64.ParseFloat (String.mk (ip ++ '.' :: fp)) =
      Float64.roundRat false v (10 ^ fp.length) := by
  have h1 := takeWhile_digits ip '.' fp hi (by decide)
  unfold Float64.ParseFloat
  simp only [h1.1, h1.2, hip, hfp, or_self, if_false, hv]

theorem no_occurrence_of_findIdle_none (s : List Char) (h : regexp.findIdle s = none) :
    ¬ ∃ pre ip fp post, IdleOccurrence s pre ip fp post := by
  rintro ⟨pre, ip, fp, post, hocc⟩
  have := findIdle_eq_none s h pre _ hocc.1
  rw [matchIdleAt_of_occurrence ip fp post hocc.2.1 hocc.2.2.1 hocc.2.2.2.1 hocc.2.2.2.2] at this
  cases this

theorem leftmost_of_drop (s pre : List Char)
    (h : ∀ i < pre.length, regexp.matchIdleAt (s.drop i) = none) :
    ∀ pre2 ip2 fp2 post2, IdleOccurrence s pre2 ip2 fp2 post2 → pre.length ≤ pre2.length := by
  intro pre2 ip2 fp2 post2 hocc
  by_contra hlt
  have h1 := h pre2.length (by omega)
  rw [hocc.1, List.drop_left,
    matchIdleAt_of_occurrence ip2 fp2 post2 hocc.2.1 hocc.2.2.1 hocc.2.2.2.1 hocc.2.2.2.2] at h1
  cases h1

/-- C6, amended.  With the `float64` arithmetic of Go: on every input without an
occurrence of digits, point, digits, ` id`, `parseCpuUsage` returns
`CPU usage info not available`; an input with an occurrence has a leftmost one;
and for the leftmost occurrence, with `d` its decimal number, it returns the
`%.2f` rendering of the `float64` difference of 100 and the `float64` nearest
to `d`, followed by the percent sign, so that `12.50 id` gives `87.50%`. -/
theorem parseCpuUsage_float64 (output : String) :
    ((¬ ∃ pre ip fp post, IdleOccurrence output.data pre ip fp post) →
        parseCpuUsage float64 output = some "CPU usage info not available") ∧
      ((∃ pre ip fp post, IdleOccurrence output.data pre ip fp post) →
        ∃ pre ip fp post, IdleOccurrence output.data pre ip fp post ∧
          ∀ pre2 ip2 fp2 post2, IdleOccurrence output.data pre2 ip2 fp2 post2 →
            pre.length ≤ pre2.length) ∧
      (∀ pre ip fp post, IdleOccurrence output.data pre ip fp post →
        (∀ pre2 ip2 fp2 post2, IdleOccurrence output.data pre2 ip2 fp2 post2 →
          pre.length ≤ pre2.length) →
        ∃ v, digitsValue (ip ++ fp) 0 = some v ∧
          parseCpuUsage float64 output =
            some (Float64.fmt2 (Float64.sub (Float64.ofInt 100)
              (Float64.roundRat false v (10 ^ fp.length))) ++ "%")) ∧
      (∀ pre post, IdleOccurrence output.data pre ['1', '2'] ['5', '0'] post →
        (∀ pre2 ip2 fp2 post2, IdleOccurrence output.data pre2 ip2 fp2 post2 →
          pre.length ≤ pre2.length) →
        parseCpuUsage float64 output = some "87.50%") := by
  have occ_match : ∀ pre ip fp post, IdleOccurrence output.data pre ip fp post →
      regexp.matchIdleAt (ip ++ '.' :: (fp ++ ' ' :: 'i' :: 'd' :: post)) =
        some (ip ++ '.' :: fp) := fun pre ip fp post h =>
    matchIdleAt_of_occurrence ip fp post h.2.1 h.2.2.1 h.2.2.2.1 h.2.2.2.2
  have match_occ : ∀ pre t g, output.data = pre ++ t → regexp.matchIdleAt t = some g →
      ∃ ip fp post, IdleOccurrence output.data pre ip fp post ∧ g = ip ++ '.' :: fp := by
    intro pre t g hs hm
    obtain ⟨ip, fp, post, ht, hip, hfp, hi, hf, hg⟩ := occurrence_of_matchIdleAt t g hm
    exact ⟨ip, fp, post, ⟨by rw [hs, ht], hip, hfp, hi, hf⟩, hg⟩
  have leftmost : ∀ pre ip fp post, IdleOccurrence output.data pre ip fp post →
      (∀ pre2 ip2 fp2 post2, IdleOccurrence output.data pre2 ip2 fp2 post2 →
        pre.length ≤ pre2.length) →
      ∃ v, digitsValue (ip ++ fp) 0 = some v ∧
        parseCpuUsage float64 output =
          some (Float64.fmt2 (Float64.sub (Float64.ofInt 100)
            (Float64.roundRat false v (10 ^ fp.length))) ++ "%") := by
    intro pre ip fp post hocc hleft
    have hfind : regexp.findIdle output.data = some (ip ++ '.' :: fp) := by
      rw [hocc.1]
      apply findIdle_of_leftmost pre _ _ (occ_match pre ip fp post hocc)
      intro pre2 t2 hs hl
      cases hm : regexp.matchIdleAt t2 with
      | none => rfl
      | some g2 =>
        obtain ⟨ip2, fp2, post2, hocc2, _⟩ := match_occ pre2 t2 g2 (by rw [hocc.1, hs]) hm
        exact absurd (hleft pre2 ip2 fp2 post2 hocc2) (by omega)
    obtain ⟨v, hv⟩ := digitsValue_isSome (ip ++ fp) 0 (fun c hc => by
      rcases List.mem_append.1 hc with h | h
      · exact hocc.2.2.2.1 c h
      · exact hocc.2.2.2.2 c h)
    refine ⟨v, hv, ?_⟩
    rw [parseCpuUsage_shape, hfind]
    show some (Float64.fmt2 (Float64.sub (Float64.ofInt 100)
      (Float64.ParseFloat (String.mk (ip ++ '.' :: fp)))) ++ "%") = _
    rw [ParseFloat_decimal ip fp v hocc.2.1 hocc.2.2.1 hocc.2.2.2.1 hv]
  refine ⟨fun hno => ?_, fun hex => ?_, leftmost, fun pre post hocc hleft => ?_⟩
  · rw [parseCpuUsage_shape]
    cases hfind : regexp.findIdle output.data with
    | none => rfl
    | some g =>
      obtain ⟨pre, t, hs, hm, _⟩ := findIdle_eq_some _ _ hfind
      obtain ⟨ip, fp, post, hocc, _⟩ := match_occ pre t g hs hm
      exact absurd ⟨pre, ip, fp, post, hocc⟩ hno
  · obtain ⟨pre0, ip0, fp0, post0, hocc0⟩ := hex
    cases hfind : regexp.findIdle output.data with
    | none =>
      have := findIdle_eq_none _ hfind pre0 _ hocc0.1
      rw [occ_match pre0 ip0 fp0 post0 hocc0] at this
      cases this
    | some g =>
      obtain ⟨pre, t, hs, hm, hleft⟩ := findIdle_eq_some _ _ hfind
      obtain ⟨ip, fp, post, hocc, _⟩ := match_occ pre t g hs hm
      refine ⟨pre, ip, fp, post, hocc, fun pre2 ip2 fp2 post2 hocc2 => ?_⟩
      by_contra hlt
      have := hleft pre2 _ hocc2.1 (by omega)
      rw [occ_match pre2 ip2 fp2 post2 hocc2] at this
      cases this
  · obtain ⟨v, hv, hres⟩ := leftmost pre ['1', '2'] ['5', '0'] post hocc hleft
    have hv2 : v = 1250 := by
      have : digitsValue (['1', '2'] ++ ['5', '0']) 0 = some 1250 := by decide
      rw [this] at hv
      exact (Option.some.inj hv).symm
    subst hv2
    rw [hres]
    decide

/-! ## Instances and counterexamples on `float64` -/

set_option maxRecDepth 100000

/-- Instances of C5 (amended): a text without a newline, and the second line
`Mem: 7822 3421`, once through the `float64` values and once through the
exact quotients. -/
theorem parseMemory_float64_witness :
    parseMemory float64 "free: unsupported" = some "Memory info not available" ∧
      parseMemory float64 "total used\nMem: 7822 3421\n" = some "3.34GB/7.64GB (43.74%)" ∧
      parseMemory float64 "total used\nMem: 7822 3421\n" =
        some (decimal2 false 3421 1024 ++ "GB/" ++ decimal2 false 7822 1024 ++ "GB (" ++
          Float64.fmt2 (Float64.mul (Float64.div (Float64.ofInt 3421) (Float64.ofInt 7822))
            (Float64.ofInt 100)) ++ "%)") :=
  ⟨(parseMemory_float64 "free: unsupported" "" "" "" "" [] 1 0).1 (by decide),
    ((parseMemory_float64 "total used\nMem: 7822 3421\n" "Mem: 7822 3421" "Mem:" "7822" "3421"
      [] 7822 3421).2 (by decide) (by decide) (by decide) (by decide) (by decide) (by decide)
      (by decide) (by decide)).1.trans (by decide),
    ((parseMemory_float64 "total used\nMem: 7822 3421\n" "Mem: 7822 3421" "Mem:" "7822" "3421"
      [] 7822 3421).2 (by decide) (by decide) (by decide) (by decide) (by decide) (by decide)
      (by decide) (by decide)).2 (by decide) (by decide)⟩

/-- Instances of C6 (amended): a text without an occurrence, and a line of `top`
whose leftmost occurrence is `12.50 id`. -/
theorem parseCpuUsage_float64_witness :
    parseCpuUsage float64 "top: command not found" = some "CPU usage info not available" ∧
      parseCpuUsage float64 "%Cpu(s):  1.2 us,  0.3 sy, 12.50 id,  0.1 wa" = some "87.50%" :=
  ⟨(parseCpuUsage_float64 "top: command not found").1
      (no_occurrence_of_findIdle_none _ (by decide)),
    (parseCpuUsage_float64 "%Cpu(s):  1.2 us,  0.3 sy, 12.50 id,  0.1 wa").2.2.2
      "%Cpu(s):  1.2 us,  0.3 sy, ".data ",  0.1 wa".data
      ⟨by decide, by decide, by decide, by decide, by decide⟩
      (leftmost_of_drop _ _ (by decide))⟩

/-- C5 as stated fails.  With total 160 and used 23 the exact percentage is
14.375, which rounds to 14.38; the `float64` quotient 23/160 times 100 is below
14.375 and is printed as 14.37.  With a total of `10 ^ 20`, beyond `int64`,
`strconv.Atoi` returns `2 ^ 63 - 1` and the total is printed as
9007199254740992.00 instead of 97656250000000000.00. -/
theorem parseMemory_differs_from_reference :
    parseMemory float64 "total used\nMem: 160 23\n" = some "0.02GB/0.16GB (14.37%)" ∧
      memoryReference 160 23 = "0.02GB/0.16GB (14.38%)" ∧
      parseMemory float64 "total used\nMem: 100000000000000000000 1024\n" =
        some "1.00GB/9007199254740992.00GB (0.00%)" ∧
      memoryReference (10 ^ 20) 1024 = "1.00GB/97656250000000000.00GB (0.00%)" := by
  decide

/-- C6 as stated fails.  For the idle value 0.025 the exact difference is
99.975, which rounds to 99.98; the `float64` difference is below 99.975 and is
printed as 99.97.  For an idle value of thirty digits the `float64` nearest to
it differs from it in the fourteen lowest digits, and so does the text. -/
theorem parseCpuUsage_differs_from_reference :
    parseCpuUsage float64 "%Cpu(s): 0.025 id" = some "99.97%" ∧
      cpuReference 25 1000 = "99.98%" ∧
      parseCpuUsage float64 "123456789012345678901234567890.00 id" =
        some "-123456789012345677877719597056.00%" ∧
      cpuReference 12345678901234567890123456789000 100 =
        "-123456789012345678901234567790.00%" := by
  decide

end GoSSHMonitor
